import Mathlib

/-!
# Verification of the wavetracker track clean-up engine

A shallow embedding of `src/wavetracker/clean_up.py`: the windowed density
validator (`get_valid_ids_by_freq_dist`), the similarity merger
(`connect_by_similarity`), the power/density filter (`power_density_filter`),
the global overlap resolver (`connect_with_overlap`) and the orchestrator
(`main`, after the one-time decibel conversion at load).

Conventions of the embedding:
* float arrays become `List ℚ` (exact rational arithmetic in place of IEEE
  doubles); the float track-id column with its NaN sentinel becomes
  `List (Option ℚ)` (`none` = NaN = unassigned); the 0/1 float validity mask
  becomes `List Bool`.
* The kernel-density estimate of the validator applies `exp`, so that one
  component is embedded over `ℝ` (`Real.exp`) and is the only noncomputable
  part; everything else is executable.
* Pure illustration / statistics code (matplotlib blocks, the histogram and
  percentile block of `power_density_filter`, the unused `med_power_id` local
  of `connect_by_similarity`) reads state and draws plots but never writes the
  arrays, and is not part of the embedding.
* `np.argsort` (default, unstable) is embedded as a stable sort; every
  concrete run below is insensitive to the order of exact ties.
-/

set_option allowUnsafeReducibility true
attribute [semireducible] Rat.add Rat.mul Rat.inv Rat.sub Rat.neg Rat.div Rat.blt

set_option maxRecDepth 100000

deriving instance DecidableEq for Except

namespace Wavetracker

/-! ## List helpers (numpy primitives) -/

/-- `List.map` with the position of each element (structural recursion, so the
kernel can evaluate it). -/
def mapIdxL (f : ℕ → α → β) : ℕ → List α → List β
  | _, [] => []
  | i, a :: t => f i a :: mapIdxL f (i + 1) t

/-- Maximum of a rational list (`np.max`; the default is irrelevant at the
call sites, which pass nonempty lists as the source assumes). -/
def listMaxD (l : List ℚ) : ℚ := l.foldr max (l.headD 0)

/-- Minimum of a rational list (`np.min`). -/
def listMinD (l : List ℚ) : ℚ := l.foldr min (l.headD 0)

/-- Arithmetic mean (`np.mean`); callers guard the empty case. -/
def meanQ (l : List ℚ) : ℚ := l.sum / l.length

/-- Stable ascending sort of the values of `l` (used for `np.sort`,
`np.median`, `np.unique`). -/
def sortQ' {β : Type} [LinearOrder β] (l : List β) : List β :=
  l.insertionSort (· ≤ ·)

/-- `np.median`: mean of the two middle values of the sorted list for even
length, the middle value for odd length. -/
def medianQ (l : List ℚ) : ℚ :=
  let s := sortQ' l
  if l.length % 2 = 1 then s.getD (l.length / 2) 0
  else (s.getD (l.length / 2 - 1) 0 + s.getD (l.length / 2) 0) / 2

/-- The lexicographic (value, position) relation that renders `np.argsort`
deterministic; ties keep the original order. -/
def argRel {β : Type} [LinearOrder β] : ℕ × β → ℕ × β → Prop :=
  fun p q => p.2 < q.2 ∨ (p.2 = q.2 ∧ p.1 ≤ q.1)

instance {β : Type} [LinearOrder β] : DecidableRel (argRel (β := β)) := fun p q => by
  unfold argRel; infer_instance

instance {β : Type} [LinearOrder β] : IsTotal (ℕ × β) (argRel (β := β)) where
  total p q := by
    rcases lt_trichotomy p.2 q.2 with h | h | h
    · exact Or.inl (Or.inl h)
    · rcases le_total p.1 q.1 with h1 | h1
      · exact Or.inl (Or.inr ⟨h, h1⟩)
      · exact Or.inr (Or.inr ⟨h.symm, h1⟩)
    · exact Or.inr (Or.inl h)

instance {β : Type} [LinearOrder β] : IsTrans (ℕ × β) (argRel (β := β)) where
  trans p q r hpq hqr := by
    rcases hpq with h | ⟨he, hi⟩
    · rcases hqr with h' | ⟨he', _⟩
      · exact Or.inl (h.trans h')
      · exact Or.inl (he' ▸ h)
    · rcases hqr with h' | ⟨he', hi'⟩
      · exact Or.inl (he ▸ h')
      · exact Or.inr ⟨he.trans he', hi.trans hi'⟩

/-- `np.argsort`: the positions of `l` ordered by ascending value (stable). -/
def argsortL {β : Type} [LinearOrder β] (l : List β) : List ℕ :=
  (l.enum.insertionSort argRel).map (·.1)

/-- `np.unique`: the distinct values of `l`, ascending. -/
def uniqueSorted {β : Type} [LinearOrder β] [DecidableEq β] (l : List β) : List β :=
  (sortQ' l).dedup

/-- `np.intersect1d`: sorted distinct common values. -/
def intersectSorted (a b : List ℕ) : List ℕ :=
  uniqueSorted (a.filter (fun x => b.contains x))

/-- `np.interp x xs ys`: linear interpolation over the sorted sample points
`xs`; clamps to the end values outside the range. -/
def interpQ (x : ℚ) : List ℚ → List ℚ → ℚ
  | [], _ => 0
  | [_], ys => ys.headD 0
  | x0 :: x1 :: xs, ys =>
    let y0 := ys.headD 0
    let y1 := (ys.tail).headD 0
    if x ≤ x0 then y0
    else if x ≤ x1 then y0 + (x - x0) * (y1 - y0) / (x1 - x0)
    else interpQ x (x1 :: xs) ys.tail

/-- Full discrete convolution, index `t` of `np.convolve a v`. -/
def convFullAt (a v : List ℚ) (t : ℕ) : ℚ :=
  ((List.range v.length).map fun j =>
    if j ≤ t ∧ t - j < a.length then a.getD (t - j) 0 * v.getD j 0 else 0).sum

/-- `np.convolve a v mode='same'`: the centred `a.length` outputs of the full
convolution. -/
def convSame (a v : List ℚ) : List ℚ :=
  (List.range a.length).map fun t => convFullAt a v (t + (v.length - 1) / 2)

/-- Python `int()` of a nonnegative rational (truncation; all the uses in the
source are on positive values). -/
def pyInt (q : ℚ) : ℕ := q.num.toNat / q.den

/-- `np.arange start stop step` for a positive rational step, with explicit
structural fuel. -/
def arangeAux (step : ℚ) (stop : ℚ) : ℕ → ℚ → List ℚ
  | 0, _ => []
  | fuel + 1, x => if x < stop then x :: arangeAux step stop fuel (x + step) else []

/-- `np.arange 0 stop step` (the orchestrator's window starts). The fuel bound
`⌈stop⌉₊ + 1` exceeds the iteration count because `step ≥ 1` at the call
site. -/
def arangeQ (stop step : ℚ) : List ℚ :=
  arangeAux step stop (stop.num.toNat + 1) 0

/-! ## The Detection Store

The four index-aligned detection arrays plus the time-bin array
(`fund_v`, `idx_v`, `ident_v`, `sign_v`, `valid_v`, `times` of
`clean_up.main`). -/

structure Store where
  fund : List ℚ
  idx : List ℕ
  ident : List (Option ℚ)
  sign : List (List ℚ)
  valid : List Bool
  times : List ℚ
deriving DecidableEq, Repr

namespace Store

/-- Number of detections. -/
def nDet (s : Store) : ℕ := s.ident.length

def identAt (s : Store) (k : ℕ) : Option ℚ := (s.ident.getD k none)

def idxAt (s : Store) (k : ℕ) : ℕ := s.idx.getD k 0

def fundAt (s : Store) (k : ℕ) : ℚ := s.fund.getD k 0

def signAt (s : Store) (k : ℕ) : List ℚ := s.sign.getD k []

def validAt (s : Store) (k : ℕ) : Bool := s.valid.getD k false

/-- `times[idx_v[k]]`: the timestamp of detection `k`. -/
def timeAt (s : Store) (k : ℕ) : ℚ := s.times.getD (s.idxAt k) 0

/-- All detection positions. -/
def dets (s : Store) : List ℕ := List.range s.nDet

/-- The detection positions satisfying a mask (boolean indexing). -/
def detsWith (s : Store) (p : ℕ → Bool) : List ℕ := s.dets.filter p

/-- `idx_v[ident_v == id]`. -/
def idxOf (s : Store) (id : ℚ) : List ℕ :=
  (s.detsWith fun k => s.identAt k = some id).map s.idxAt

/-- `np.nanmax(ident_v)`. -/
def maxIdent (s : Store) : ℚ := listMaxD (s.ident.filterMap id)

end Store

/-! ## 4.3 Power-Density Filter (`power_density_filter`, clean_up.py 550-733)

The histogram / percentile / `density_v` block (lines 554-664) only feeds the
illustration figures and the commented-out adaptive threshold, so it does not
appear: the state mutation starts at the `for id in np.unique(...)` loop of
line 671. -/

/-- `density_th` (line 666). -/
def densityTh : ℚ := 1 / 10

/-- `dB_th` (line 669). -/
def dBTh : ℚ := -100

/-- `idx_v[ident_v == id]` as used by the filter loop. -/
def trackIdxs (s : Store) (id : ℚ) : List ℕ := s.idxOf id

/-- `np.max(sign_v[ident_v == id], axis=1)`: peak channel power per
detection of the track. -/
def trackPowers (s : Store) (id : ℚ) : List ℚ :=
  (s.detsWith fun k => s.identAt k = some id).map fun k => listMaxD (s.signAt k)

/-- `len(i) / (i[-1] - i[0] + 1)` (line 673). -/
def trackDensity (s : Store) (id : ℚ) : ℚ :=
  let i := trackIdxs s id
  (i.length : ℚ) / ((((i.getLastD 0 : ℤ) - (i.headD 0 : ℤ) + 1 : ℤ) : ℚ))

/-- `np.mean(p)` (line 675). -/
def trackMeanPower (s : Store) (id : ℚ) : ℚ := meanQ (trackPowers s id)

/-- The bulk rejection test of line 676. -/
def pdfFails (s : Store) (id : ℚ) : Prop :=
  trackDensity s id < densityTh ∨ trackMeanPower s id ≤ dBTh

instance (s : Store) (id : ℚ) : Decidable (pdfFails s id) := by
  unfold pdfFails; infer_instance

/-- The guard of the re-split attempt (lines 678-681): rejected on power with
acceptable density and a lifetime over ten minutes. -/
def resplitPre (dps : ℚ) (s : Store) (id : ℚ) : Prop :=
  trackMeanPower s id ≤ dBTh ∧ trackDensity s id > densityTh ∧
    (((trackIdxs s id).getLastD 0 - (trackIdxs s id).headD 0 : ℤ) : ℚ) / dps > 10 * 60

instance (dps : ℚ) (s : Store) (id : ℚ) : Decidable (resplitPre dps s id) := by
  unfold resplitPre; infer_instance

/-- `len(p[p > dB_th]) / len(p) > 0.1` (line 702): the recoverable fraction
check. -/
def resplitFrac (s : Store) (id : ℚ) : Prop :=
  (((trackPowers s id).filter (fun q => dBTh < q)).length : ℚ) /
      ((trackPowers s id).length : ℚ) > 1 / 10

instance (s : Store) (id : ℚ) : Decidable (resplitFrac s id) := by
  unfold resplitFrac; infer_instance

/-- The smoothed, interpolated power of the track over every bin of its span
(lines 684-697): `pp` interpolated over `ii`, box-smoothed and edge
renormalised (the `1/corr_fac` factor cancels the kernel's constant
divisor). -/
def smoothedPower (dps : ℚ) (s : Store) (id : ℚ) : List ℚ :=
  let i := trackIdxs s id
  let p := trackPowers s id
  let ii := List.range' (i.headD 0) (i.getLastD 0 + 1 - i.headD 0)
  let pp := ii.map fun x => interpQ (x : ℚ) (i.map (fun n => (n : ℚ))) p
  let ker := List.replicate (pyInt (60 * dps)) ((1 : ℚ) / (pyInt (10 * 60 * dps) : ℚ))
  let ppp := convSame pp ker
  let corr := convSame (List.replicate pp.length (1 : ℚ)) ker
  List.zipWith (fun a c => a * (1 / c)) ppp corr

/-- The recovered segments `zip(up_idx, down_idx)` (lines 703-722), built from
the up/down threshold crossings of the smoothed power, with the source's
defaulting of missing crossings to the span ends. -/
def resplitSegments (dps : ℚ) (s : Store) (id : ℚ) : List (ℤ × ℤ) :=
  let i := trackIdxs s id
  let first : ℤ := (i.headD 0 : ℤ)
  let last : ℤ := (i.getLastD 0 : ℤ)
  let ii := List.range' (i.headD 0) (i.getLastD 0 + 1 - i.headD 0)
  let ppp := smoothedPower dps s id
  let up0 : List ℤ := (List.range (ppp.length - 1)).filterMap fun k =>
    if ppp.getD k 0 < dBTh ∧ dBTh < ppp.getD (k + 1) 0 then some ((ii.getD k 0 : ℤ)) else none
  let down0 : List ℤ := (List.range (ppp.length - 1)).filterMap fun k =>
    if dBTh < ppp.getD k 0 ∧ ppp.getD (k + 1) 0 < dBTh then some ((ii.getD (k + 1) 0 : ℤ))
    else none
  let up1 := if up0.isEmpty then [first] else up0
  let down1 := if down0.isEmpty then [last] else down0
  let up2 := if down1.headD 0 < up1.headD 0 then (first - 1) :: up1 else up1
  let down2 := if down1.getLastD 0 < up2.getLastD 0 then down1 ++ [last + 1] else down1
  up2.zip down2

/-- One `ident_v[(ident_v == id) & (idx_v >= ui) & (idx_v < di)] = next_ident`
assignment of the re-split loop (lines 722-725). -/
def resplitAssign (s : Store) (id next : ℚ) (seg : ℤ × ℤ) (idv : List (Option ℚ)) :
    List (Option ℚ) :=
  mapIdxL (fun k v =>
    if v = some id ∧ seg.1 ≤ (s.idxAt k : ℤ) ∧ (s.idxAt k : ℤ) < seg.2 then some next
    else v) 0 idv

/-- The re-split relabelling (lines 721-726): every segment's detections of
the track get the single fresh id `np.nanmax(ident_v) + 1`, and that id's
detections are then marked valid. -/
def applyResplit (s : Store) (id : ℚ) (segs : List (ℤ × ℤ)) : Store :=
  let next : ℚ := s.maxIdent + 1
  let ident' := segs.foldl (fun idv seg => resplitAssign s id next seg idv) s.ident
  let valid' := mapIdxL (fun k v => if ident'.getD k none = some next then true else v)
    0 s.valid
  { s with ident := ident', valid := valid' }

/-- `valid_v[ident_v == id] = 0` (line 677): the bulk invalidation of a
rejected track. -/
def pdfRejectId (s : Store) (id : ℚ) : Store :=
  { s with
    valid := (mapIdxL (fun k v => if s.identAt k = some id then false else v) 0 s.valid) }

/-- One iteration of the filter loop (lines 671-726) for one track id (the
`isEmpty` guard is unreachable for the ids the loop ranges over; the source
would fail on an empty selection). -/
def pdfStep (dps : ℚ) (s : Store) (id : ℚ) : Store :=
  if (trackIdxs s id).isEmpty then s
  else if pdfFails s id then
    if resplitPre dps s id then
      if resplitFrac s id then
        applyResplit (pdfRejectId s id) id (resplitSegments dps s id)
      else pdfRejectId s id
    else pdfRejectId s id
  else s

/-- The id universe of the filter loop: distinct assigned ids with a valid
detection, fixed before the loop runs (line 671). -/
def pdfIds (s : Store) : List ℚ :=
  uniqueSorted ((s.detsWith fun k => s.validAt k && (s.identAt k).isSome).filterMap s.identAt)

/-- `dps = 1 / (times[1] - times[0])` (line 552). -/
def dpsOf (s : Store) : ℚ := 1 / (s.times.getD 1 0 - s.times.getD 0 0)

/-- `power_density_filter` (lines 550-733): evaluates every currently-valid
track over its whole lifetime, rejecting sparse or weak tracks and
re-splitting power-rejected long tracks. -/
def power_density_filter (s : Store) : Store :=
  (pdfIds s).foldl (pdfStep (dpsOf s)) s

/-- The condition under which `pdfStep` relabels anything: the track is
rejected, the re-split precondition holds and the recoverable fraction passes
(the conjunction of the guards on the `applyResplit` path). -/
def resplitFires (dps : ℚ) (s : Store) (id : ℚ) : Prop :=
  pdfFails s id ∧ resplitPre dps s id ∧ resplitFrac s id

instance (dps : ℚ) (s : Store) (id : ℚ) : Decidable (resplitFires dps s id) := by
  unfold resplitFires; infer_instance

/-! ## Concrete stores for the Power-Density Filter -/

/-- A single 21-detection track over bins 0..20 (one time bin per minute),
with peak power −90 dB except a −150 dB dip over bins 8..12: mean power
−2190/21 ≤ −100, density 1, lifetime 20 minutes, recoverable fraction 16/21 —
the filter rejects it on power and re-splits it into the two above-threshold
segments. -/
def storeTwoSeg : Store := {
  fund := List.replicate 21 500,
  idx := List.range 21,
  ident := List.replicate 21 (some 1),
  sign := List.replicate 8 [(-90 : ℚ)] ++ List.replicate 5 [(-150 : ℚ)] ++
    List.replicate 8 [(-90 : ℚ)],
  valid := List.replicate 21 true,
  times := (List.range 21).map (fun (k : ℕ) => 60 * (k : ℚ)) }

/-- A single track with detections at bins 0..10 and bin 100: power −90 dB at
bins 0,1,2 and 100, −1000 dB at bins 3..10. The first filter run rejects it on
power and re-splits it into two recovered segments (bins 0..2 and bin 100)
that together form a track of density 4/101 < 0.1. -/
def storeSparseSplit : Store := {
  fund := List.replicate 12 500,
  idx := List.range 11 ++ [100],
  ident := List.replicate 12 (some 1),
  sign := List.replicate 3 [(-90 : ℚ)] ++ List.replicate 8 [(-1000 : ℚ)] ++ [[(-90 : ℚ)]],
  valid := List.replicate 12 true,
  times := (List.range 101).map (fun (k : ℕ) => 60 * (k : ℚ)) }

/-! ## Generic lemmas about the pointwise update helper -/

theorem mapIdxL_length (f : ℕ → α → β) (i : ℕ) (l : List α) :
    (mapIdxL f i l).length = l.length := by
  induction l generalizing i with
  | nil => rfl
  | cons a t ih => simp [mapIdxL, ih]

theorem mapIdxL_getD (f : ℕ → α → α) (i k : ℕ) (l : List α) (d : α) :
    (mapIdxL f i l).getD k d = if k < l.length then f (i + k) (l.getD k d) else d := by
  induction l generalizing i k with
  | nil => simp [mapIdxL]
  | cons a t ih =>
    cases k with
    | zero => simp [mapIdxL]
    | succ m =>
      simp only [mapIdxL, List.getD_cons_succ, ih, List.length_cons]
      rw [show i + (m + 1) = i + 1 + m by omega]
      simp only [Nat.add_lt_add_iff_right]

theorem mapIdxL_congr {f g : ℕ → α → β} (h : ∀ i a, f i a = g i a) (i : ℕ) (l : List α) :
    mapIdxL f i l = mapIdxL g i l := by
  induction l generalizing i with
  | nil => rfl
  | cons a t ih => simp [mapIdxL, h, ih]

theorem mapIdxL_comp (f g : ℕ → α → α) (i : ℕ) (l : List α) :
    mapIdxL f i (mapIdxL g i l) = mapIdxL (fun j a => f j (g j a)) i l := by
  induction l generalizing i with
  | nil => rfl
  | cons a t ih => simp [mapIdxL, ih]

theorem mapIdxL_id (i : ℕ) (l : List α) : mapIdxL (fun _ a => a) i l = l := by
  induction l generalizing i with
  | nil => rfl
  | cons a t ih => simp [mapIdxL, ih]

theorem mapIdxL_eq_self {f : ℕ → α → α} (h : ∀ i a, f i a = a) (i : ℕ) (l : List α) :
    mapIdxL f i l = l := by
  rw [mapIdxL_congr h, mapIdxL_id]

theorem mem_uniqueSorted {β : Type} [LinearOrder β] [DecidableEq β] (l : List β) (x : β) :
    x ∈ uniqueSorted l ↔ x ∈ l := by
  unfold uniqueSorted sortQ'
  rw [List.mem_dedup]
  exact (List.perm_insertionSort _ l).mem_iff

/-! ## Behaviour of the re-split relabelling -/

theorem resplitAssign_getD (s : Store) (id next : ℚ) (seg : ℤ × ℤ)
    (idv : List (Option ℚ)) (k : ℕ) :
    (resplitAssign s id next seg idv).getD k none =
      if k < idv.length then
        (if idv.getD k none = some id ∧ seg.1 ≤ (s.idxAt k : ℤ) ∧ (s.idxAt k : ℤ) < seg.2
          then some next else idv.getD k none)
      else none := by
  unfold resplitAssign
  rw [mapIdxL_getD]
  simp

theorem resplitAssign_length (s : Store) (id next : ℚ) (seg : ℤ × ℤ)
    (idv : List (Option ℚ)) :
    (resplitAssign s id next seg idv).length = idv.length :=
  mapIdxL_length _ _ _

theorem resplit_foldl_length (s : Store) (id next : ℚ) (segs : List (ℤ × ℤ))
    (idv : List (Option ℚ)) :
    (segs.foldl (fun idv seg => resplitAssign s id next seg idv) idv).length = idv.length := by
  induction segs generalizing idv with
  | nil => rfl
  | cons sg t ih => simp only [List.foldl_cons, ih, resplitAssign_length]

theorem resplit_foldl_mem (s : Store) (id next : ℚ) (segs : List (ℤ × ℤ))
    (idv : List (Option ℚ)) (k : ℕ) :
    (segs.foldl (fun idv seg => resplitAssign s id next seg idv) idv).getD k none
        = idv.getD k none ∨
      (segs.foldl (fun idv seg => resplitAssign s id next seg idv) idv).getD k none
        = some next := by
  induction segs generalizing idv with
  | nil => exact Or.inl rfl
  | cons sg t ih =>
    simp only [List.foldl_cons]
    rcases ih (resplitAssign s id next sg idv) with h | h
    · rw [h, resplitAssign_getD]
      split_ifs with hk hc
      · exact Or.inr rfl
      · exact Or.inl rfl
      · exact Or.inl (List.getD_eq_default _ _ (le_of_not_lt hk)).symm
    · exact Or.inr h

theorem pdfStep_resplit_eq (dps : ℚ) (s : Store) (id : ℚ)
    (hne : (trackIdxs s id).isEmpty = false) (hf : pdfFails s id)
    (hpre : resplitPre dps s id) (hfrac : resplitFrac s id) :
    pdfStep dps s id = applyResplit (pdfRejectId s id) id (resplitSegments dps s id) := by
  unfold pdfStep
  rw [hne]
  simp only [Bool.false_eq_true, if_false, if_pos hf, if_pos hpre, if_pos hfrac]

theorem pdfStep_noResplit_eq (dps : ℚ) (s : Store) (id : ℚ)
    (hne : (trackIdxs s id).isEmpty = false) (hnr : ¬ resplitFires dps s id) :
    pdfStep dps s id = if pdfFails s id then pdfRejectId s id else s := by
  unfold pdfStep
  rw [hne]
  simp only [Bool.false_eq_true, if_false]
  by_cases hf : pdfFails s id
  · rw [if_pos hf, if_pos hf]
    by_cases hp : resplitPre dps s id
    · rw [if_pos hp]
      have hfr : ¬ resplitFrac s id := fun hfr => hnr ⟨hf, hp, hfr⟩
      rw [if_neg hfr]
    · rw [if_neg hp]
  · rw [if_neg hf, if_neg hf]

set_option maxHeartbeats 2000000 in
/-- C7 (amended). When the Power-Density Filter's re-split fires for a
power-rejected track (nonempty, acceptable density, lifetime over 10 minutes,
recoverable fraction above 10%), every detection whose id the re-split changes
receives the one fresh id `max existing id + 1` — the id is not incremented
between segments — and is marked valid. -/
theorem C7_resplit_assigns_single_fresh_id (dps : ℚ) (s : Store) (id : ℚ)
    (hne : (trackIdxs s id).isEmpty = false) (hf : pdfFails s id)
    (hpre : resplitPre dps s id) (hfrac : resplitFrac s id)
    (hlen : s.valid.length = s.ident.length) (k : ℕ)
    (hch : (pdfStep dps s id).ident.getD k none ≠ s.ident.getD k none) :
    (pdfStep dps s id).ident.getD k none = some (s.maxIdent + 1) ∧
      (pdfStep dps s id).valid.getD k false = true := by
  rw [pdfStep_resplit_eq dps s id hne hf hpre hfrac] at hch ⊢
  set s1 : Store := pdfRejectId s id with hs1
  set segs := resplitSegments dps s id with hsegs
  have hident : (applyResplit s1 id segs).ident =
      segs.foldl (fun idv seg => resplitAssign s1 id (s1.maxIdent + 1) seg idv) s1.ident := rfl
  have hvalid : (applyResplit s1 id segs).valid =
      mapIdxL (fun k v =>
        if (segs.foldl (fun idv seg => resplitAssign s1 id (s1.maxIdent + 1) seg idv)
            s1.ident).getD k none = some (s1.maxIdent + 1) then true
        else v) 0 s1.valid := rfl
  have hsid : s1.ident = s.ident := rfl
  have hsmax : s1.maxIdent = s.maxIdent := rfl
  rcases resplit_foldl_mem s1 id (s1.maxIdent + 1) segs s1.ident k with hmem | hmem
  · exact absurd (by rw [hident, hmem, hsid]) hch
  · have hklt : k < s.ident.length := by
      by_contra hk
      apply hch
      rw [hident]
      rw [List.getD_eq_default, List.getD_eq_default]
      · exact le_of_not_lt hk
      · rw [resplit_foldl_length, hsid]
        exact le_of_not_lt hk
    have hkv : k < s1.valid.length := by
      have : s1.valid.length = s.valid.length := mapIdxL_length _ _ _
      omega
    constructor
    · rw [hident, hmem, hsmax]
    · rw [hvalid, mapIdxL_getD, if_pos hkv]
      simp only [Nat.zero_add]
      rw [if_pos hmem]

/-- C7 (counterexample). On `storeTwoSeg` the re-split finds two recovered
segments, yet after the filter the detections of both segments (positions 0
and 20) carry the same new id 2, and the only ids present are 1 and 2: a track
with two above-threshold segments yields one new id, not two distinct ones. -/
theorem C7_two_segments_get_equal_ids :
    resplitSegments (dpsOf storeTwoSeg) storeTwoSeg 1 = [(-1, 8), (12, 21)] ∧
      (power_density_filter storeTwoSeg).ident.getD 0 none = some 2 ∧
      (power_density_filter storeTwoSeg).ident.getD 20 none = some 2 ∧
      uniqueSorted ((power_density_filter storeTwoSeg).ident.filterMap id) = [1, 2] := by
  decide

/-- C7 witness: the amended theorem applied to the concrete two-segment
store. -/
theorem C7_resplit_assigns_single_fresh_id_witness :
    (pdfStep (dpsOf storeTwoSeg) storeTwoSeg 1).ident.getD 0 none =
        some (storeTwoSeg.maxIdent + 1) ∧
      (pdfStep (dpsOf storeTwoSeg) storeTwoSeg 1).valid.getD 0 false = true :=
  C7_resplit_assigns_single_fresh_id (dpsOf storeTwoSeg) storeTwoSeg 1 (by decide)
    (by decide) (by decide) (by decide) (by decide) 0 (by decide)

/-- C9 (counterexample). Running the Power-Density Filter a second time on its
own output changes the validity mask on `storeSparseSplit`: the first run
re-splits the track into a recovered track of density 4/101 < 0.1, which the
second run then rejects. -/
theorem C9_second_run_changes_mask :
    (power_density_filter (power_density_filter storeSparseSplit)).valid ≠
      (power_density_filter storeSparseSplit).valid := by
  decide

/-! ## Idempotence of the filter in the absence of a re-split

The filter's per-track metrics read only `ident`, `idx`, `sign` and `times`,
never the validity mask, so a pure mask update leaves them unchanged
(definitional equalities below), and a run that re-splits nothing only zeroes
the mask of the failing tracks. -/

theorem pdfFails_updateValid (s : Store) (v : List Bool) (id : ℚ) :
    pdfFails { s with valid := v } id ↔ pdfFails s id := Iff.rfl

theorem resplitFires_updateValid (dps : ℚ) (s : Store) (v : List Bool) (id : ℚ) :
    resplitFires dps { s with valid := v } id ↔ resplitFires dps s id := Iff.rfl

theorem trackIdxs_updateValid (s : Store) (v : List Bool) (id : ℚ) :
    trackIdxs { s with valid := v } id = trackIdxs s id := rfl

theorem identAt_updateValid (s : Store) (v : List Bool) (k : ℕ) :
    Store.identAt { s with valid := v } k = s.identAt k := rfl

theorem dpsOf_updateValid (s : Store) (v : List Bool) :
    dpsOf { s with valid := v } = dpsOf s := rfl

/-- The validity mask left by a filter pass over `ids` when no re-split
fires: a detection is cleared exactly when its id is one of the failing ids of
the pass. -/
def rejectedMask (s : Store) (ids : List ℚ) : List Bool :=
  mapIdxL (fun k v =>
    if ∃ id ∈ ids, pdfFails s id ∧ s.identAt k = some id then false else v) 0 s.valid

theorem pdf_fold_noResplit (dps : ℚ) (s : Store) (ids : List ℚ)
    (h : ∀ id ∈ ids, ¬ resplitFires dps s id ∧ (trackIdxs s id).isEmpty = false) :
    ids.foldl (pdfStep dps) s = { s with valid := rejectedMask s ids } := by
  induction ids generalizing s with
  | nil =>
    unfold rejectedMask
    have : (mapIdxL (fun k v =>
        if ∃ id ∈ ([] : List ℚ), pdfFails s id ∧ s.identAt k = some id then false else v)
        0 s.valid) = s.valid := by
      rw [mapIdxL_eq_self]
      intro i a
      simp
    rw [List.foldl_nil, this]
  | cons id rest ih =>
    rw [List.foldl_cons,
      pdfStep_noResplit_eq dps s id (h id (List.mem_cons_self id rest)).2
        (h id (List.mem_cons_self id rest)).1]
    by_cases hf : pdfFails s id
    · rw [if_pos hf]
      have hrest : ∀ id' ∈ rest, ¬ resplitFires dps (pdfRejectId s id) id' ∧
          (trackIdxs (pdfRejectId s id) id').isEmpty = false := by
        intro id' hm
        exact h id' (List.mem_cons_of_mem id hm)
      rw [ih (pdfRejectId s id) hrest]
      unfold rejectedMask pdfRejectId
      simp only []
      congr 1
      rw [mapIdxL_comp]
      simp only [pdfFails_updateValid, identAt_updateValid]
      apply mapIdxL_congr
      intro i a
      by_cases h1 : ∃ id' ∈ rest, pdfFails s id' ∧ s.identAt i = some id'
      · rw [if_pos h1, if_pos ?_]
        rcases h1 with ⟨id', hm, hP⟩
        exact ⟨id', List.mem_cons_of_mem id hm, hP⟩
      · rw [if_neg h1]
        by_cases h2 : s.identAt i = some id
        · rw [if_pos h2, if_pos ?_]
          exact ⟨id, List.mem_cons_self id rest, hf, h2⟩
        · rw [if_neg h2, if_neg ?_]
          intro hcon
          rcases hcon with ⟨id', hm, hP, hE⟩
          rcases List.mem_cons.mp hm with h3 | h3
          · exact h2 (h3 ▸ hE)
          · exact h1 ⟨id', h3, hP, hE⟩
    · rw [if_neg hf]
      rw [ih s (fun id' hm => h id' (List.mem_cons_of_mem id hm))]
      unfold rejectedMask
      congr 1
      apply mapIdxL_congr
      intro i a
      by_cases h1 : ∃ id' ∈ rest, pdfFails s id' ∧ s.identAt i = some id'
      · rw [if_pos h1, if_pos ?_]
        rcases h1 with ⟨id', hm, hP⟩
        exact ⟨id', List.mem_cons_of_mem id hm, hP⟩
      · rw [if_neg h1, if_neg ?_]
        intro hcon
        rcases hcon with ⟨id', hm, hP, hE⟩
        rcases List.mem_cons.mp hm with h3 | h3
        · exact hf (h3 ▸ hP)
        · exact h1 ⟨id', h3, hP, hE⟩

theorem mem_pdfIds (s : Store) (id : ℚ) :
    id ∈ pdfIds s ↔ ∃ k ∈ s.dets, s.validAt k ∧ s.identAt k = some id := by
  unfold pdfIds
  rw [mem_uniqueSorted, List.mem_filterMap]
  constructor
  · rintro ⟨k, hk, hE⟩
    rcases List.mem_filter.mp hk with ⟨hd, hb⟩
    rcases Bool.and_eq_true_iff.mp hb with ⟨hv, _⟩
    exact ⟨k, hd, hv, hE⟩
  · rintro ⟨k, hd, hv, hE⟩
    refine ⟨k, List.mem_filter.mpr ⟨hd, ?_⟩, hE⟩
    rw [Bool.and_eq_true_iff]
    exact ⟨hv, by rw [hE]; rfl⟩

theorem trackIdxs_isEmpty_false (s : Store) (id : ℚ) (k : ℕ) (hd : k ∈ s.dets)
    (hE : s.identAt k = some id) : (trackIdxs s id).isEmpty = false := by
  have hk : k ∈ s.detsWith fun j => s.identAt j = some id :=
    List.mem_filter.mpr ⟨hd, decide_eq_true hE⟩
  have hmem : s.idxAt k ∈ trackIdxs s id := List.mem_map_of_mem _ hk
  have hnn : trackIdxs s id ≠ [] := List.ne_nil_of_mem hmem
  cases hL : trackIdxs s id with
  | nil => exact absurd hL hnn
  | cons a t => rfl

set_option maxHeartbeats 1000000 in
/-- C9 (amended). The Power-Density Filter is idempotent whenever its first
run performs no re-split: if no currently-valid track satisfies the re-split
guard, running the filter a second time on its own output leaves the validity
mask exactly as the first run produced it (re-split tracks, by contrast, can
be rejected or re-split again, as the counterexample shows). -/
theorem C9_filter_idempotent_without_resplit (s : Store)
    (hnr : ∀ id ∈ pdfIds s, ¬ resplitFires (dpsOf s) s id) :
    (power_density_filter (power_density_filter s)).valid =
      (power_density_filter s).valid := by
  have hne : ∀ id ∈ pdfIds s, (trackIdxs s id).isEmpty = false := by
    intro id hm
    rcases (mem_pdfIds s id).mp hm with ⟨k, hd, _, hE⟩
    exact trackIdxs_isEmpty_false s id k hd hE
  have h1 : power_density_filter s = { s with valid := rejectedMask s (pdfIds s) } :=
    pdf_fold_noResplit (dpsOf s) s (pdfIds s) (fun id hm => ⟨hnr id hm, hne id hm⟩)
  set s' : Store := { s with valid := rejectedMask s (pdfIds s) } with hs'
  have hnofail : ∀ id ∈ pdfIds s', ¬ pdfFails s' id := by
    intro id hm
    rcases (mem_pdfIds s' id).mp hm with ⟨k, hd, hv, hE⟩
    have hvs : s'.validAt k = ((rejectedMask s (pdfIds s)).getD k false) := rfl
    rw [hvs] at hv
    unfold rejectedMask at hv
    rw [mapIdxL_getD] at hv
    by_cases hk : k < s.valid.length
    · rw [if_pos hk] at hv
      have hEk : s.identAt k = some id := hE
      by_cases hc : ∃ id' ∈ pdfIds s, pdfFails s id' ∧ s.identAt (0 + k) = some id'
      · rw [if_pos hc] at hv
        exact absurd hv (by simp)
      · rw [if_neg hc] at hv
        intro hfail
        apply hc
        refine ⟨id, ?_, hfail, by rw [Nat.zero_add]; exact hEk⟩
        rw [mem_pdfIds]
        exact ⟨k, hd, hv, hEk⟩
    · rw [if_neg hk] at hv
      exact absurd hv (by simp)
  have h2 : power_density_filter s' = { s' with valid := rejectedMask s' (pdfIds s') } := by
    apply pdf_fold_noResplit (dpsOf s') s' (pdfIds s')
    intro id hm
    constructor
    · intro hfire
      exact hnofail id hm hfire.1
    · rcases (mem_pdfIds s' id).mp hm with ⟨k, hd, _, hE⟩
      exact trackIdxs_isEmpty_false s' id k hd hE
  have h3 : rejectedMask s' (pdfIds s') = s'.valid := by
    unfold rejectedMask
    rw [mapIdxL_eq_self]
    intro i a
    rw [if_neg ?_]
    rintro ⟨id', hm, hP, _⟩
    exact hnofail id' hm hP
  rw [h1, h2]
  show rejectedMask s' (pdfIds s') = s'.valid
  exact h3

/-- A store whose single track passes the filter outright (density 1, mean
power −50 dB): the no-re-split hypothesis of the idempotence theorem holds. -/
def storePass : Store := {
  fund := List.replicate 5 500,
  idx := List.range 5,
  ident := List.replicate 5 (some 1),
  sign := List.replicate 5 [(-50 : ℚ)],
  valid := List.replicate 5 true,
  times := (List.range 5).map (fun (k : ℕ) => 60 * (k : ℚ)) }

/-- C9 witness: the amended idempotence theorem applied to a concrete store
whose first run performs no re-split. -/
theorem C9_filter_idempotent_without_resplit_witness :
    (power_density_filter (power_density_filter storePass)).valid =
      (power_density_filter storePass).valid :=
  C9_filter_idempotent_without_resplit storePass (by decide)

/-! ## 4.2 Similarity Merger (`connect_by_similarity`, clean_up.py 149-233)

The `valid_ids` argument is dynamically either the 2-D `[id, median_freq,
first_time]` table built by the validator or the 1-D id array that an empty
window passes through unchanged; `ValidIdsArr` mirrors that dynamic shape.
The unused `med_power_id` local (lines 159-163, computed but never read) is
not part of the embedding. -/

/-- One row of the validator's `valid_ids` table:
`[id, np.median(f), times[idx_v[ident_v == id]][0]]`. -/
structure IdRow where
  id : ℚ
  medf : ℚ
  t0 : ℚ
deriving DecidableEq, Repr

/-- The dynamic shape of the `valid_ids` ndarray: a `(n, 3)` table of rows, or
the 1-D array of previously-valid ids that `get_valid_ids_by_freq_dist`
returns for an empty window. -/
inductive ValidIdsArr
  | rows (l : List IdRow)
  | flat (l : List ℚ)
deriving DecidableEq, Repr

/-- Membership of a detection in the sliding window:
`(times[idx_v] >= i0) & (times[idx_v] < i0 + stride)`. -/
def windowMask (s : Store) (i0 stride : ℚ) (k : ℕ) : Bool :=
  decide (i0 ≤ s.timeAt k) && decide (s.timeAt k < i0 + stride)

/-- The candidate pair order of the merger (lines 165-170): row-major
unravelling of the argsort of the pairwise median-frequency distances, with
the diagonal removed. -/
def simPairs (rs : List IdRow) : List (ℕ × ℕ) :=
  let n := rs.length
  let flat : List ℚ := (List.range (n * n)).map fun t =>
    |(rs.getD (t / n) ⟨0, 0, 0⟩).medf - (rs.getD (t % n) ⟨0, 0, 0⟩).medf|
  ((argsortL flat).map fun t => (t / n, t % n)).filter fun p => p.1 ≠ p.2

/-- `more_id` of lines 181-182. -/
def simMore (s : Store) (id0 id1 : ℚ) : ℚ :=
  if (s.idxOf id1).length < (s.idxOf id0).length then id0 else id1

/-- `less_id` of lines 181-182. -/
def simLess (s : Store) (id0 id1 : ℚ) : ℚ :=
  if simMore s id0 id1 = id0 then id1 else id0

/-- The shared-bin rejection of lines 184-190: both tracks share more than 1%
of their time bins. -/
def simSkipShare (s : Store) (id0 id1 : ℚ) : Prop :=
  ((s.idxOf id1).length : ℚ) * (1 / 100) < (intersectSorted (s.idxOf id0) (s.idxOf id1)).length ∧
    ((s.idxOf id0).length : ℚ) * (1 / 100) < (intersectSorted (s.idxOf id0) (s.idxOf id1)).length

instance (s : Store) (id0 id1 : ℚ) : Decidable (simSkipShare s id0 id1) := by
  unfold simSkipShare; infer_instance

/-- The interleaved frequency-jump rejection of lines 192-215: sort the merged
window detections of the two tracks by time index (shared bins contributed by
the more-populous track only) and reject the merge when the frequency step at
any boundary between the two tracks exceeds `f_th`. -/
def simJump (s : Store) (fTh i0 stride more less : ℚ) : Prop :=
  let detsM := s.detsWith fun k => decide (s.identAt k = some more) && windowMask s i0 stride k
  let detsL := s.detsWith fun k => decide (s.identAt k = some less) && windowMask s i0 stride k
  let idxM := detsM.map s.idxAt
  let idxL := detsL.map s.idxAt
  let dIdx := intersectSorted idxM idxL
  let keepL := (List.range detsL.length).filter fun j => !(dIdx.contains (idxL.getD j 0))
  let joinIdx := idxM ++ keepL.map fun j => idxL.getD j 0
  let helpV : List ℕ := List.replicate idxM.length 0 ++ List.replicate keepL.length 1
  let joinFund := (detsM.map s.fundAt) ++ keepL.map fun j => (detsL.map s.fundAt).getD j 0
  let sorter := argsortL joinIdx
  let helpS := sorter.map fun t => helpV.getD t 0
  let fundS := sorter.map fun t => joinFund.getD t 0
  ∃ j ∈ List.range (helpS.length - 1),
    helpS.getD j 0 ≠ helpS.getD (j + 1) 0 ∧ fTh < |fundS.getD (j + 1) 0 - fundS.getD j 0|

instance (s : Store) (fTh i0 stride more less : ℚ) :
    Decidable (simJump s fTh i0 stride more less) := by
  unfold simJump; infer_instance

/-- The merge application of lines 217-229: shared-bin detections of the
less-populous track have their id set to NaN, the (already relabelled) mask
update that follows, and the relabelling of the later-starting id to the
earlier-starting one. -/
def simApply (s : Store) (r0 r1 : IdRow) (less : ℚ) (rs : List IdRow) :
    List IdRow × Store :=
  let doubleIdx := intersectSorted (s.idxOf r0.id) (s.idxOf r1.id)
  let ident1 := mapIdxL (fun k v =>
    if doubleIdx.contains (s.idxAt k) ∧ v = some less then none else v) 0 s.ident
  let valid1 := mapIdxL (fun k v =>
    if doubleIdx.contains (s.idxAt k) ∧ ident1.getD k none = some less then false else v)
    0 s.valid
  if r0.t0 < r1.t0 then
    (rs.map (fun r => if r.id = r1.id then { r with id := r0.id } else r),
      { s with
        ident := (ident1.map fun v => if v = some r1.id then some r0.id else v),
        valid := valid1 })
  else
    (rs.map (fun r => if r.id = r0.id then { r with id := r1.id } else r),
      { s with
        ident := (ident1.map fun v => if v = some r0.id then some r1.id else v),
        valid := valid1 })

/-- The body of one merger-loop iteration (lines 175-229), after the sorted
early-exit check. -/
def simBody (s : Store) (fTh i0 stride : ℚ) (rs : List IdRow) (p : ℕ × ℕ) :
    List IdRow × Store :=
  if simSkipShare s (rs.getD p.1 ⟨0, 0, 0⟩).id (rs.getD p.2 ⟨0, 0, 0⟩).id then (rs, s)
  else if simJump s fTh i0 stride
      (simMore s (rs.getD p.1 ⟨0, 0, 0⟩).id (rs.getD p.2 ⟨0, 0, 0⟩).id)
      (simLess s (rs.getD p.1 ⟨0, 0, 0⟩).id (rs.getD p.2 ⟨0, 0, 0⟩).id) then (rs, s)
  else simApply s (rs.getD p.1 ⟨0, 0, 0⟩) (rs.getD p.2 ⟨0, 0, 0⟩)
    (simLess s (rs.getD p.1 ⟨0, 0, 0⟩).id (rs.getD p.2 ⟨0, 0, 0⟩).id) rs

/-- The merger loop (lines 172-229), with the sorted early exit of lines
173-174. -/
def simLoop (fTh i0 stride : ℚ) : List (ℕ × ℕ) → List IdRow → Store → List IdRow × Store
  | [], rs, s => (rs, s)
  | p :: rest, rs, s =>
    if fTh < |(rs.getD p.1 ⟨0, 0, 0⟩).medf - (rs.getD p.2 ⟨0, 0, 0⟩).medf| then (rs, s)
    else
      let q := simBody s fTh i0 stride rs p
      simLoop fTh i0 stride rest q.1 q.2

/-- `connect_by_similarity` (lines 149-233). A nonempty 1-D `valid_ids`
(the pass-through of an empty window after a window that produced valid ids)
reaches `valid_ids[:, 1]` and raises `IndexError`. -/
def connect_by_similarity (s : Store) (va : ValidIdsArr) (fTh i0 stride : ℚ) :
    Except String (List ℚ × Store) :=
  match va with
  | .flat [] => .ok ([], s)
  | .flat (_ :: _) =>
    .error "IndexError: too many indices for array: valid_ids is 1-dimensional"
  | .rows [] => .ok ([], s)
  | .rows rs =>
    let q := simLoop fTh i0 stride (simPairs rs) rs s
    .ok (uniqueSorted (q.1.map (·.id)), q.2)

/-! ## Claim C6: the merge application -/

theorem listMap_getD (f : α → β) (l : List α) (k : ℕ) (dA : α) (dB : β)
    (h : k < l.length) : (l.map f).getD k dB = f (l.getD k dA) := by
  induction l generalizing k with
  | nil => simp at h
  | cons a t ih =>
    cases k with
    | zero => rfl
    | succ m =>
      simp only [List.map_cons, List.getD_cons_succ]
      exact ih m (Nat.lt_of_succ_lt_succ h)

theorem simApply_valid (s : Store) (r0 r1 : IdRow) (less : ℚ) (rs : List IdRow) :
    (simApply s r0 r1 less rs).2.valid = s.valid := by
  have key : (mapIdxL (fun k v =>
      if (intersectSorted (s.idxOf r0.id) (s.idxOf r1.id)).contains (s.idxAt k) ∧
          (mapIdxL (fun k v =>
            if (intersectSorted (s.idxOf r0.id) (s.idxOf r1.id)).contains (s.idxAt k) ∧
                v = some less then none
            else v) 0 s.ident).getD k none = some less then false
      else v) 0 s.valid) = s.valid := by
    rw [mapIdxL_eq_self]
    intro i a
    rw [if_neg ?_]
    rintro ⟨hc, hv⟩
    rw [mapIdxL_getD] at hv
    simp only [Nat.zero_add] at hv
    by_cases hk : i < s.ident.length
    · rw [if_pos hk] at hv
      by_cases hd : (intersectSorted (s.idxOf r0.id) (s.idxOf r1.id)).contains
          (s.idxAt i) = true ∧ s.ident.getD i none = some less
      · rw [if_pos hd] at hv
        exact Option.noConfusion hv
      · rw [if_neg hd] at hv
        exact hd ⟨hc, hv⟩
    · rw [if_neg hk] at hv
      exact Option.noConfusion hv
  unfold simApply
  by_cases ht : r0.t0 < r1.t0
  · rw [if_pos ht]
    exact key
  · rw [if_neg ht]
    exact key

set_option maxHeartbeats 1000000 in
/-- C6 (amended). When a Similarity Merger merge fires (the shared-bin and
frequency-jump rejections both pass), the detections at time bins shared by
both tracks are dropped from the less-populous track only, in the sense that
their track id is set to the absent sentinel — but their validity flag is NOT
cleared (the mask update re-tests the already-NaN id column, so it never
matches) — and the detections of the later-starting id are relabelled to the
earlier-starting id: the id with the earlier first-occurrence time always
wins, regardless of which track is more populous. -/
theorem C6_merge_drops_into_older_id (s : Store) (fTh i0 stride : ℚ)
    (rs : List IdRow) (p : ℕ × ℕ)
    (hskip : ¬ simSkipShare s (rs.getD p.1 ⟨0, 0, 0⟩).id (rs.getD p.2 ⟨0, 0, 0⟩).id)
    (hjump : ¬ simJump s fTh i0 stride
      (simMore s (rs.getD p.1 ⟨0, 0, 0⟩).id (rs.getD p.2 ⟨0, 0, 0⟩).id)
      (simLess s (rs.getD p.1 ⟨0, 0, 0⟩).id (rs.getD p.2 ⟨0, 0, 0⟩).id)) (k : ℕ) :
    (simBody s fTh i0 stride rs p).2.valid = s.valid ∧
      (simBody s fTh i0 stride rs p).2.ident.getD k none =
        (if (intersectSorted (s.idxOf (rs.getD p.1 ⟨0, 0, 0⟩).id)
              (s.idxOf (rs.getD p.2 ⟨0, 0, 0⟩).id)).contains (s.idxAt k) ∧
            s.ident.getD k none =
              some (simLess s (rs.getD p.1 ⟨0, 0, 0⟩).id (rs.getD p.2 ⟨0, 0, 0⟩).id)
          then none
          else if s.ident.getD k none =
              some (if (rs.getD p.1 ⟨0, 0, 0⟩).t0 < (rs.getD p.2 ⟨0, 0, 0⟩).t0
                then (rs.getD p.2 ⟨0, 0, 0⟩).id else (rs.getD p.1 ⟨0, 0, 0⟩).id)
            then some (if (rs.getD p.1 ⟨0, 0, 0⟩).t0 < (rs.getD p.2 ⟨0, 0, 0⟩).t0
              then (rs.getD p.1 ⟨0, 0, 0⟩).id else (rs.getD p.2 ⟨0, 0, 0⟩).id)
          else s.ident.getD k none) := by
  have hbody : simBody s fTh i0 stride rs p =
      simApply s (rs.getD p.1 ⟨0, 0, 0⟩) (rs.getD p.2 ⟨0, 0, 0⟩)
        (simLess s (rs.getD p.1 ⟨0, 0, 0⟩).id (rs.getD p.2 ⟨0, 0, 0⟩).id) rs := by
    unfold simBody
    rw [if_neg hskip, if_neg hjump]
  rw [hbody]
  refine ⟨simApply_valid _ _ _ _ _, ?_⟩
  set r0 := rs.getD p.1 ⟨0, 0, 0⟩ with hr0
  set r1 := rs.getD p.2 ⟨0, 0, 0⟩ with hr1
  set less := simLess s r0.id r1.id with hless
  set dbl := intersectSorted (s.idxOf r0.id) (s.idxOf r1.id) with hdbl
  have hident1 : ∀ j : ℕ,
      ((mapIdxL (fun k v => if dbl.contains (s.idxAt k) ∧ v = some less then none else v)
        0 s.ident : List (Option ℚ))).getD j none =
      (if j < s.ident.length then
        (if dbl.contains (s.idxAt j) ∧ s.ident.getD j none = some less then none
          else s.ident.getD j none)
        else none) := by
    intro j
    rw [mapIdxL_getD]
    simp only [Nat.zero_add]
  unfold simApply
  by_cases ht : r0.t0 < r1.t0
  · rw [if_pos ht, if_pos ht, if_pos ht]
    by_cases hk : k < s.ident.length
    · have hlen1 : k < (mapIdxL (fun k v =>
          if dbl.contains (s.idxAt k) ∧ v = some less then none else v) 0 s.ident).length := by
        rw [mapIdxL_length]; exact hk
      rw [listMap_getD _ _ _ none none hlen1, hident1 k, if_pos hk]
      by_cases hc : dbl.contains (s.idxAt k) ∧ s.ident.getD k none = some less
      · rw [if_pos hc, if_pos hc]
        rw [if_neg (by simp)]
      · rw [if_neg hc, if_neg hc]
    · have hlen2 : ((mapIdxL (fun k v =>
          if dbl.contains (s.idxAt k) ∧ v = some less then none else v) 0 s.ident).map
          (fun v => if v = some r1.id then some r0.id else v)).length ≤ k := by
        rw [List.length_map, mapIdxL_length]; exact le_of_not_lt hk
      rw [List.getD_eq_default _ _ hlen2,
        List.getD_eq_default _ _ (le_of_not_lt hk)]
      rw [if_neg (by rintro ⟨_, h⟩; exact Option.noConfusion h),
        if_neg (by intro h; exact Option.noConfusion h)]
  · rw [if_neg ht, if_neg ht, if_neg ht]
    by_cases hk : k < s.ident.length
    · have hlen1 : k < (mapIdxL (fun k v =>
          if dbl.contains (s.idxAt k) ∧ v = some less then none else v) 0 s.ident).length := by
        rw [mapIdxL_length]; exact hk
      rw [listMap_getD _ _ _ none none hlen1, hident1 k, if_pos hk]
      by_cases hc : dbl.contains (s.idxAt k) ∧ s.ident.getD k none = some less
      · rw [if_pos hc, if_pos hc]
        rw [if_neg (by simp)]
      · rw [if_neg hc, if_neg hc]
    · have hlen2 : ((mapIdxL (fun k v =>
          if dbl.contains (s.idxAt k) ∧ v = some less then none else v) 0 s.ident).map
          (fun v => if v = some r0.id then some r1.id else v)).length ≤ k := by
        rw [List.length_map, mapIdxL_length]; exact le_of_not_lt hk
      rw [List.getD_eq_default _ _ hlen2,
        List.getD_eq_default _ _ (le_of_not_lt hk)]
      rw [if_neg (by rintro ⟨_, h⟩; exact Option.noConfusion h),
        if_neg (by intro h; exact Option.noConfusion h)]

/-- The window and valid-ids table for the C6 counterexample: tracks 5 (two
detections, first occurrence at t = 0) and 7 (three detections, first
occurrence at t = 120) at 1 Hz median distance with no shared bins. -/
def storeMerge : Store := {
  fund := [500, 500, 501, 501, 501],
  idx := [0, 1, 2, 3, 4],
  ident := [some 5, some 5, some 7, some 7, some 7],
  sign := List.replicate 5 [(-50 : ℚ)],
  valid := List.replicate 5 true,
  times := [0, 60, 120, 180, 240] }

/-- The validator rows for `storeMerge`. -/
def rowsMerge : List IdRow := [⟨5, 500, 0⟩, ⟨7, 501, 120⟩]

/-- C6 (counterexample). In `storeMerge` the merge fires for tracks 5 (2
detections, older) and 7 (3 detections, newer): the code relabels the MORE
populous track 7 to the LESS populous id 5 because 5 started earlier, whereas
the claim requires the less-populous track's detections to be relabelled to
the more-populous id 7 (the tie-break should not apply since the populations
differ). -/
theorem C6_more_populous_loses_to_older :
    (storeMerge.idxOf 5).length = 2 ∧ (storeMerge.idxOf 7).length = 3 ∧
      connect_by_similarity storeMerge (.rows rowsMerge) (5 / 2) 0 600 =
        .ok ([5], { storeMerge with ident := List.replicate 5 (some 5) }) := by
  decide

/-- C6 witness: the amended merge-effect theorem applied to the concrete
window (detection 2 belonged to the newer, more populous track 7 and ends up
with the older id 5; no validity flag changes). -/
theorem C6_merge_drops_into_older_id_witness :
    (simBody storeMerge (5 / 2) 0 600 rowsMerge (0, 1)).2.valid = storeMerge.valid ∧
      (simBody storeMerge (5 / 2) 0 600 rowsMerge (0, 1)).2.ident.getD 2 none = some 5 := by
  have h := C6_merge_drops_into_older_id storeMerge (5 / 2) 0 600 rowsMerge (0, 1)
    (by decide) (by decide) 2
  exact ⟨h.1, by rw [h.2]; decide⟩

/-! ## 4.4 Overlap Resolver (`connect_with_overlap`, clean_up.py 236-547)

`time_tol = 5 * 60`, `freq_tol = 2.5`. The candidate mean frequency distance
is `np.mean` of a possibly empty selection, i.e. NaN: modelled as `Option ℚ`
with `none` for NaN, which `np.argsort` orders last (`WithTop`). -/

/-- One entry of `connections_candidates`. -/
structure OverlapCand where
  id0 : ℚ
  id1 : ℚ
  dist : Option ℚ
deriving DecidableEq, Repr

/-- NaN sorts after every number under `np.argsort`. -/
def optTop : Option ℚ → WithTop ℚ
  | none => ⊤
  | some q => (q : WithTop ℚ)

/-- `itertools.combinations(unique_ids, r=2)` over an ascending id list. -/
def pairsComb : List ℚ → List (ℚ × ℚ)
  | [] => []
  | a :: t => (t.map fun b => (a, b)) ++ pairsComb t

/-- All `(a, b)` with `a < n`, `b < m`, row major (the flattening order of a
2-D boolean mask; the order is irrelevant to the mean taken afterwards). -/
def pairsGrid (n m : ℕ) : List (ℕ × ℕ) :=
  ((List.range n).map fun a => (List.range m).map fun b => (a, b)).flatten

/-- The candidate filter of lines 244-326: time-span overlap with the
5-minute pad, at least two detections of each track inside the padded
overlap, frequency-span overlap with the 2.5 Hz pad, at most 1% shared bins,
then the mean frequency distance over detection pairs within the time
tolerance. -/
def overlapCandidate (s : Store) (id0 id1 : ℚ) : Option OverlapCand :=
  let t0 := (s.detsWith fun k => decide (s.identAt k = some id0)).map s.timeAt
  let t1 := (s.detsWith fun k => decide (s.identAt k = some id1)).map s.timeAt
  let a0 := t0.headD 0 - 300
  let b0 := t0.getLastD 0 + 300
  let a1 := t1.headD 0 - 300
  let b1 := t1.getLastD 0 + 300
  if ¬ ((a0 ≤ a1 ∧ a1 < b0) ∨ (a1 ≤ a0 ∧ a0 < b1)) then none
  else
    let ot := sortQ' [a0, b0, a1, b1]
    let lo := ot.getD 1 0
    let hi := ot.getD 2 0
    let dets0 := s.detsWith fun k =>
      decide (s.identAt k = some id0) && decide (lo < s.timeAt k) && decide (s.timeAt k < hi)
    let dets1 := s.detsWith fun k =>
      decide (s.identAt k = some id1) && decide (lo < s.timeAt k) && decide (s.timeAt k < hi)
    let f0 := dets0.map s.fundAt
    let f1 := dets1.map s.fundAt
    if f0.length ≤ 1 ∨ f1.length ≤ 1 then none
    else
      let fa0 := listMinD f0 - 5 / 2
      let fb0 := listMaxD f0 + 5 / 2
      let fa1 := listMinD f1 - 5 / 2
      let fb1 := listMaxD f1 + 5 / 2
      if ¬ ((fa0 ≤ fa1 ∧ fa1 < fb0) ∨ (fa1 ≤ fa0 ∧ fa0 < fb1)) then none
      else
        let taken0 := s.idxOf id0
        let taken1 := s.idxOf id1
        let dbl := (taken0.filter fun i => taken1.contains i).length
        if (taken1.length : ℚ) * (1 / 100) < dbl ∧ (taken0.length : ℚ) * (1 / 100) < dbl
        then none
        else
          let i0 := dets0.map s.idxAt
          let i1 := dets1.map s.idxAt
          let vd := (pairsGrid i1.length i0.length).filterMap fun p =>
            if s.times.getD (((i0.getD p.2 0 : ℤ) - (i1.getD p.1 0 : ℤ)).natAbs) 0 ≤ 300
            then some |f0.getD p.2 0 - f1.getD p.1 0| else none
          some ⟨id0, id1, if vd.isEmpty then none else some (meanQ vd)⟩

/-- The tagged outcome of the decision table (lines 382-427): no merge, the
trivial full merge (`id_for_overlap = None`), or a region merge keeping
`id0`'s (`keep0 = true`) or `id1`'s detections inside the contention
region. -/
inductive MergeDecision
  | noMerge | trivialMerge | regionMerge (keep0 : Bool)
deriving DecidableEq, Repr

/-- `n_overlap_ratio <= 0.1 or np.isnan(n_overlap_ratio)`. -/
def nanLE01 : Option ℚ → Prop
  | none => True
  | some q => q ≤ 1 / 10

instance (r : Option ℚ) : Decidable (nanLE01 r) := by
  unfold nanLE01; cases r <;> infer_instance

/-- `n_overlap_ratio >= 0.7` (false for NaN, as float comparison). -/
def nanGE07 : Option ℚ → Prop
  | none => False
  | some q => 7 / 10 ≤ q

instance (r : Option ℚ) : Decidable (nanGE07 r) := by
  unfold nanGE07; cases r <;> infer_instance

/-- The decision table of lines 385-427, checked in source order. The two
sparse-absorption branches are as written in the source: `density0 * 3 <
density1` for track 0 but `density1 * 0.3 < density0` for track 1. -/
def decideMerge (oc0 oc1 : ℕ) (d0 d1 : ℚ) (r0 r1 : Option ℚ) : MergeDecision :=
  if oc0 ≤ 1 ∧ oc1 ≤ 1 then .trivialMerge
  else if nanLE01 r0 ∧ nanLE01 r1 then .regionMerge true
  else if d0 ≤ 1 / 10 ∧ d0 * 3 < d1 then .regionMerge false
  else if d1 ≤ 1 / 10 ∧ d1 * (3 / 10) < d0 then .regionMerge true
  else if d0 ≤ 3 / 10 ∧ nanGE07 r0 ∧ d0 * 2 < d1 then .regionMerge false
  else if d1 ≤ 3 / 10 ∧ nanGE07 r1 ∧ d1 * 2 < d0 then .regionMerge true
  else .noMerge

/-- The region-merge mutation of lines 443-456: discard the deleted id's
detections inside the contention region, relabel the kept id's detections
there to `first_id`, and extend `first_id` over the tail when the
later-ending track is not the earlier-starting one. -/
def applyRegionMerge (s : Store) (delId idFor firstId lastId : ℚ) (s1 s2 : ℕ) :
    List (Option ℚ) :=
  let ident1 := mapIdxL (fun k v =>
    if v = some delId ∧ s1 ≤ s.idxAt k ∧ s.idxAt k ≤ s2 then none else v) 0 s.ident
  let ident2 := mapIdxL (fun k v =>
    if v = some idFor ∧ s1 ≤ s.idxAt k ∧ s.idxAt k ≤ s2 then some firstId else v) 0 ident1
  if lastId ≠ firstId then
    mapIdxL (fun k v => if v = some lastId ∧ s2 < s.idxAt k then some firstId else v) 0 ident2
  else ident2

/-- Rewriting retired ids in the pending candidate list (lines 458-463). -/
def rewriteCands (cands : List OverlapCand) (old new : ℚ) : List OverlapCand :=
  cands.map fun c =>
    { c with
      id0 := if c.id0 = old then new else c.id0,
      id1 := if c.id1 = old then new else c.id1 }

/-- One iteration of the resolution loop (lines 330-463) at candidate
position `n`. -/
def resolveBody (st : List OverlapCand × Store) (n : ℕ) : List OverlapCand × Store :=
  let cands := st.1
  let s := st.2
  let id0 := (cands.getD n ⟨0, 0, none⟩).id0
  let id1 := (cands.getD n ⟨0, 0, none⟩).id1
  let idxv0 := s.idxOf id0
  let idxv1 := s.idxOf id1
  if idxv0.isEmpty ∨ idxv1.isEmpty then st
  else
    let fl := [idxv0.headD 0, idxv0.getLastD 0, idxv1.headD 0, idxv1.getLastD 0]
    let category := (argsortL fl).map fun t => [0, 0, 1, 1].getD t 0
    let sfl := sortQ' fl
    let lo := sfl.getD 1 0
    let hi := sfl.getD 2 0
    let oc0 := (idxv0.filter fun i => decide (lo ≤ i) && decide (i ≤ hi)).length
    let oc1 := (idxv1.filter fun i => decide (lo ≤ i) && decide (i ≤ hi)).length
    let dbl := (intersectSorted idxv0 idxv1).length
    let d0 : ℚ := (oc0 : ℚ) / ((hi - lo + 1 : ℕ) : ℚ)
    let d1 : ℚ := (oc1 : ℚ) / ((hi - lo + 1 : ℕ) : ℚ)
    let r0 : Option ℚ := if 0 < oc0 then some ((dbl : ℚ) / (oc0 : ℚ)) else none
    let r1 : Option ℚ := if 0 < oc1 then some ((dbl : ℚ) / (oc1 : ℚ)) else none
    let firstId := if category.headD 0 = 0 then id0 else id1
    let notFirst := if firstId = id0 then id1 else id0
    let lastId := if category.getLastD 0 = 0 then id0 else id1
    match decideMerge oc0 oc1 d0 d1 r0 r1 with
    | .noMerge => st
    | .trivialMerge =>
      (rewriteCands cands notFirst firstId,
        { s with ident := (s.ident.map fun v => if v = some notFirst then some firstId else v) })
    | .regionMerge keep0 =>
      (rewriteCands cands notFirst firstId,
        { s with ident := (applyRegionMerge s (if keep0 then id1 else id0)
            (if keep0 then id0 else id1) firstId lastId lo hi) })

/-- `connect_with_overlap` (lines 236-547). When the candidate list is empty,
`connections_candidates` is a 1-D empty float array and
`connections_candidates[:, 2]` raises `IndexError` before the loop starts. -/
def connect_with_overlap (s : Store) : Except String Store :=
  let uids := uniqueSorted
    ((s.detsWith fun k => s.validAt k && (s.identAt k).isSome).filterMap s.identAt)
  let cands := (pairsComb uids).filterMap fun p => overlapCandidate s p.1 p.2
  if cands.isEmpty then
    .error "IndexError: too many indices for array: connections_candidates is 1-dimensional"
  else
    let order := argsortL (cands.map fun c => optTop c.dist)
    .ok (order.foldl resolveBody (cands, s)).2

/-! ## Claim C4: the resolver with no candidate pairs -/

/-- A store with a single valid two-detection track: `unique_ids` has one
element, `itertools.combinations` yields no pair, and the candidate list stays
empty. -/
def storeSingleTrack : Store := {
  fund := [500, 500],
  idx := [0, 1],
  ident := [some 1, some 1],
  sign := List.replicate 2 [(-50 : ℚ)],
  valid := [true, true],
  times := [0, 60] }

/-- C4. The claim says a resolver run that finds no candidate pairs is a
no-op that never raises; on the code, an empty `connections_candidates` list
becomes a 1-D empty array whose `[:, 2]` slicing raises `IndexError`, so the
pipeline aborts (here on a store that still holds one valid track). -/
theorem C4_no_candidates_raises_IndexError :
    uniqueSorted ((storeSingleTrack.detsWith fun k =>
        storeSingleTrack.validAt k && (storeSingleTrack.identAt k).isSome).filterMap
      storeSingleTrack.identAt) = [1] ∧
      connect_with_overlap storeSingleTrack =
        .error "IndexError: too many indices for array: connections_candidates is 1-dimensional" := by
  decide

/-! ## Claim C8: the sparse-absorption rule -/

/-- Modelled from the spec: decision-table entry 3 as the spec words it — one
track's density in the region is at most 0.1 and at least 3 times lower than
the other's — stated for the track with density `dSelf` against the other
track's density `dOther`. The spec presents the rule as symmetric in the two
tracks. -/
def specSparseAbsorb (dSelf dOther : ℚ) : Prop :=
  dSelf ≤ 1 / 10 ∧ 3 * dSelf ≤ dOther

instance (a b : ℚ) : Decidable (specSparseAbsorb a b) := by
  unfold specSparseAbsorb; infer_instance

/-- C8 (counterexample). With equal densities 0.05 in the contention region
(both ≤ 0.1, neither 3 times lower than the other) and overlap ratios 1, the
code's decision table still absorbs track 1 — its second sparse-absorption
branch tests `density1 * 0.3 < density0`, not the 3-times rule — while the
spec's symmetric entry 3 fires for neither track, and no earlier entry
applies. -/
theorem C8_absorption_fires_on_equal_densities :
    decideMerge 2 2 (1 / 20) (1 / 20) (some 1) (some 1) = .regionMerge true ∧
      ¬ ((2 : ℕ) ≤ 1 ∧ (2 : ℕ) ≤ 1) ∧
      ¬ (nanLE01 (some 1) ∧ nanLE01 (some 1)) ∧
      ¬ ((1 : ℚ) / 20 ≤ 1 / 10 ∧ (1 : ℚ) / 20 * 3 < 1 / 20) ∧
      ((1 : ℚ) / 20 ≤ 1 / 10 ∧ (1 : ℚ) / 20 * (3 / 10) < 1 / 20) ∧
      ¬ specSparseAbsorb (1 / 20) (1 / 20) := by
  decide

set_option maxHeartbeats 1000000 in
/-- C8 (amended). When neither the trivial-merge entry nor the low-evidence
entry applies, the sparse-absorption entry of the decision table fires with
asymmetric guards: track 0 is absorbed exactly under `density0 ≤ 0.1 ∧
density0 * 3 < density1`, and otherwise track 1 is absorbed under `density1 ≤
0.1 ∧ density1 * 0.3 < density0` (a 0.3 factor, not the symmetric 3-times
rule). When an absorption fires, the deleted track's detections inside the
contention region are discarded (id set to the absent sentinel) and the kept
track's detections there are relabelled to the merged id `first_id`. -/
theorem C8_sparse_absorption_rule (oc0 oc1 : ℕ) (d0 d1 : ℚ) (r0 r1 : Option ℚ)
    (h1 : ¬ (oc0 ≤ 1 ∧ oc1 ≤ 1)) (h2 : ¬ (nanLE01 r0 ∧ nanLE01 r1))
    (s : Store) (delId idFor firstId lastId : ℚ) (lo hi : ℕ) (k : ℕ)
    (hne : delId ≠ idFor) :
    ((d0 ≤ 1 / 10 ∧ d0 * 3 < d1) →
        decideMerge oc0 oc1 d0 d1 r0 r1 = .regionMerge false) ∧
      (¬ (d0 ≤ 1 / 10 ∧ d0 * 3 < d1) → (d1 ≤ 1 / 10 ∧ d1 * (3 / 10) < d0) →
        decideMerge oc0 oc1 d0 d1 r0 r1 = .regionMerge true) ∧
      ((s.ident.getD k none = some delId ∧ lo ≤ s.idxAt k ∧ s.idxAt k ≤ hi) →
        (applyRegionMerge s delId idFor firstId lastId lo hi).getD k none = none) ∧
      ((s.ident.getD k none = some idFor ∧ lo ≤ s.idxAt k ∧ s.idxAt k ≤ hi) →
        (applyRegionMerge s delId idFor firstId lastId lo hi).getD k none = some firstId) := by
  refine ⟨?_, ?_, ?_, ?_⟩
  · rintro h3
    unfold decideMerge
    rw [if_neg h1, if_neg h2, if_pos h3]
  · rintro h3 h4
    unfold decideMerge
    rw [if_neg h1, if_neg h2, if_neg h3, if_pos h4]
  · rintro ⟨hid, hr⟩
    have hk : k < s.ident.length := by
      by_contra hk
      rw [List.getD_eq_default _ _ (le_of_not_lt hk)] at hid
      exact Option.noConfusion hid
    unfold applyRegionMerge
    have e1 : (mapIdxL (fun k v =>
        if v = some delId ∧ lo ≤ s.idxAt k ∧ s.idxAt k ≤ hi then none else v)
        0 s.ident).getD k none = none := by
      rw [mapIdxL_getD, if_pos hk]
      simp only [Nat.zero_add]
      rw [if_pos ⟨hid, hr⟩]
    have hk1 : k < (mapIdxL (fun k v =>
        if v = some delId ∧ lo ≤ s.idxAt k ∧ s.idxAt k ≤ hi then none else v)
        0 s.ident).length := by
      rw [mapIdxL_length]; exact hk
    have e2 : (mapIdxL (fun k v =>
        if v = some idFor ∧ lo ≤ s.idxAt k ∧ s.idxAt k ≤ hi then some firstId else v) 0
        (mapIdxL (fun k v =>
          if v = some delId ∧ lo ≤ s.idxAt k ∧ s.idxAt k ≤ hi then none else v)
          0 s.ident)).getD k none = none := by
      rw [mapIdxL_getD, if_pos hk1]
      simp only [Nat.zero_add]
      rw [e1, if_neg (by rintro ⟨h, _⟩; exact Option.noConfusion h)]
    have hk2 : k < (mapIdxL (fun k v =>
        if v = some idFor ∧ lo ≤ s.idxAt k ∧ s.idxAt k ≤ hi then some firstId else v) 0
        (mapIdxL (fun k v =>
          if v = some delId ∧ lo ≤ s.idxAt k ∧ s.idxAt k ≤ hi then none else v)
          0 s.ident)).length := by
      rw [mapIdxL_length, mapIdxL_length]; exact hk
    by_cases hl : lastId ≠ firstId
    · rw [if_pos hl, mapIdxL_getD, if_pos hk2]
      simp only [Nat.zero_add]
      rw [e2, if_neg (by rintro ⟨h, _⟩; exact Option.noConfusion h)]
    · rw [if_neg hl]
      exact e2
  · rintro ⟨hid, hr⟩
    have hk : k < s.ident.length := by
      by_contra hk
      rw [List.getD_eq_default _ _ (le_of_not_lt hk)] at hid
      exact Option.noConfusion hid
    unfold applyRegionMerge
    have e1 : (mapIdxL (fun k v =>
        if v = some delId ∧ lo ≤ s.idxAt k ∧ s.idxAt k ≤ hi then none else v)
        0 s.ident).getD k none = some idFor := by
      rw [mapIdxL_getD, if_pos hk]
      simp only [Nat.zero_add]
      rw [if_neg (by rintro ⟨h, _⟩; rw [hid] at h; exact hne (Option.some.inj h).symm),
        hid]
    have hk1 : k < (mapIdxL (fun k v =>
        if v = some delId ∧ lo ≤ s.idxAt k ∧ s.idxAt k ≤ hi then none else v)
        0 s.ident).length := by
      rw [mapIdxL_length]; exact hk
    have e2 : (mapIdxL (fun k v =>
        if v = some idFor ∧ lo ≤ s.idxAt k ∧ s.idxAt k ≤ hi then some firstId else v) 0
        (mapIdxL (fun k v =>
          if v = some delId ∧ lo ≤ s.idxAt k ∧ s.idxAt k ≤ hi then none else v)
          0 s.ident)).getD k none = some firstId := by
      rw [mapIdxL_getD, if_pos hk1]
      simp only [Nat.zero_add]
      rw [e1, if_pos ⟨rfl, hr⟩]
    have hk2 : k < (mapIdxL (fun k v =>
        if v = some idFor ∧ lo ≤ s.idxAt k ∧ s.idxAt k ≤ hi then some firstId else v) 0
        (mapIdxL (fun k v =>
          if v = some delId ∧ lo ≤ s.idxAt k ∧ s.idxAt k ≤ hi then none else v)
          0 s.ident)).length := by
      rw [mapIdxL_length, mapIdxL_length]; exact hk
    by_cases hl : lastId ≠ firstId
    · rw [if_pos hl, mapIdxL_getD, if_pos hk2]
      simp only [Nat.zero_add]
      rw [e2, if_neg (by rintro ⟨h, _⟩; exact hl (Option.some.inj h).symm)]
    · rw [if_neg hl]
      exact e2

/-- C8 witness: the amended absorption theorem applied to the concrete inputs
of the counterexample and a two-detection store. -/
theorem C8_sparse_absorption_rule_witness :
    (((1 : ℚ) / 20 ≤ 1 / 10 ∧ (1 : ℚ) / 20 * 3 < 1 / 20) →
        decideMerge 2 2 (1 / 20) (1 / 20) (some 1) (some 1) = .regionMerge false) ∧
      (¬ ((1 : ℚ) / 20 ≤ 1 / 10 ∧ (1 : ℚ) / 20 * 3 < 1 / 20) →
        ((1 : ℚ) / 20 ≤ 1 / 10 ∧ (1 : ℚ) / 20 * (3 / 10) < 1 / 20) →
        decideMerge 2 2 (1 / 20) (1 / 20) (some 1) (some 1) = .regionMerge true) ∧
      ((storeSingleTrack.ident.getD 0 none = some 2 ∧ 0 ≤ storeSingleTrack.idxAt 0 ∧
          storeSingleTrack.idxAt 0 ≤ 1) →
        (applyRegionMerge storeSingleTrack 2 1 1 2 0 1).getD 0 none = none) ∧
      ((storeSingleTrack.ident.getD 0 none = some 1 ∧ 0 ≤ storeSingleTrack.idxAt 0 ∧
          storeSingleTrack.idxAt 0 ≤ 1) →
        (applyRegionMerge storeSingleTrack 2 1 1 2 0 1).getD 0 none = some 1) :=
  C8_sparse_absorption_rule 2 2 (1 / 20) (1 / 20) (some 1) (some 1) (by decide) (by decide)
    storeSingleTrack 2 1 1 2 0 1 0 (by decide)

/-! ## 4.5 Final top-N selection (`main`, clean_up.py 832-854)

Counts every assigned (non-NaN) id — the validity mask is not consulted —
sorts ascending by count, keeps the last `n_fish` ids, rebuilds the mask from
scratch for the kept ids and sets every other id to NaN. -/

/-- `np.sum([ident_v == fish_id])`: the total detection count of an id. -/
def countOf (s : Store) (x : ℚ) : ℕ :=
  (s.detsWith fun k => decide (s.identAt k = some x)).length

/-- The ids kept by the final selection: `idents[np.argsort(counts)][-n_fish:]`. -/
def keptIdents (s : Store) (nFish : ℕ) : List ℚ :=
  let idents := uniqueSorted (s.ident.filterMap id)
  let counts := idents.map (countOf s)
  let sortedIdents := (argsortL counts).map fun t => idents.getD t 0
  sortedIdents.drop (sortedIdents.length - nFish)

/-- The final selection (lines 832-854): `valid_v` is rebuilt from zeros for
the kept ids (tested against the pre-update id column), and every id not kept
is set to NaN (`np.isin(nan, ...)` is false, so NaN stays NaN). -/
def finalSelection (s : Store) (nFish : ℕ) : Store :=
  { s with
    ident := (s.ident.map fun v => match v with
      | some c => if (keptIdents s nFish).contains c then some c else none
      | none => none),
    valid := (s.ident.map fun v => match v with
      | some c => (keptIdents s nFish).contains c
      | none => false) }

theorem finalSelection_valid_iff (s : Store) (nFish k : ℕ) :
    ((finalSelection s nFish).valid.getD k false = true ↔
      (finalSelection s nFish).ident.getD k none ≠ none) := by
  have hv : (finalSelection s nFish).valid = s.ident.map fun v => match v with
      | some c => (keptIdents s nFish).contains c
      | none => false := rfl
  have hi : (finalSelection s nFish).ident = s.ident.map fun v => match v with
      | some c => if (keptIdents s nFish).contains c then some c else none
      | none => none := rfl
  rw [hv, hi]
  by_cases hk : k < s.ident.length
  · rw [listMap_getD _ _ _ none false hk, listMap_getD _ _ _ none none hk]
    cases hval : s.ident.getD k none with
    | none => simp
    | some c =>
      by_cases hc : (keptIdents s nFish).contains c
      · simp [hc]
      · simp [hc]
  · rw [List.getD_eq_default _ _ (by rw [List.length_map]; exact le_of_not_lt hk),
      List.getD_eq_default _ _ (by rw [List.length_map]; exact le_of_not_lt hk)]
    simp

/-! ## Claim C2: what the final selection actually ranks -/

theorem argRel_le {β : Type} [LinearOrder β] {p q : ℕ × β} (h : argRel p q) : p.2 ≤ q.2 := by
  rcases h with h | ⟨h, _⟩
  · exact le_of_lt h
  · exact le_of_eq h

theorem nodup_uniqueSorted {β : Type} [LinearOrder β] [DecidableEq β] (l : List β) :
    (uniqueSorted l).Nodup := List.nodup_dedup _

/-- The selected id list is drawn from the assigned ids, holds at most
`nFish` entries, and count-dominates every assigned id it leaves out. -/
theorem keptIdents_spec (s : Store) (nFish : ℕ) :
    (∀ a ∈ keptIdents s nFish, a ∈ uniqueSorted (s.ident.filterMap id)) ∧
      (keptIdents s nFish).length ≤ nFish ∧
      (∀ b ∈ uniqueSorted (s.ident.filterMap id), b ∉ keptIdents s nFish →
        ∀ a ∈ keptIdents s nFish, countOf s b ≤ countOf s a) := by
  set idents := uniqueSorted (s.ident.filterMap id) with hidents
  set counts := idents.map (countOf s) with hcounts
  set ps := counts.enum.insertionSort argRel with hps
  set f : ℕ × ℕ → ℚ := fun p => idents.getD p.1 0 with hf
  have hsortEq : (argsortL counts).map (fun t => idents.getD t 0) = ps.map f := by
    unfold argsortL
    rw [List.map_map]
    rfl
  set M := ((argsortL counts).map fun t => idents.getD t 0).length - nFish with hM
  have hkept : keptIdents s nFish = (ps.drop M).map f := by
    unfold keptIdents
    simp only [← hidents, ← hcounts]
    rw [hsortEq, List.map_drop]
    rw [hsortEq] at hM
    rw [← hM]
  have hmemPs : ∀ p ∈ ps, p.1 < counts.length ∧ p.2 = counts.getD p.1 0 := by
    intro p hp
    have hp' : p ∈ counts.enum := (List.perm_insertionSort argRel counts.enum).mem_iff.mp hp
    have := @List.mem_enum ℕ p.2 p.1 counts hp'
    exact ⟨this.1, by rw [List.getD_eq_getElem _ _ this.1]; exact this.2⟩
  have hcount_eq : ∀ p ∈ ps, countOf s (f p) = p.2 := by
    intro p hp
    rcases hmemPs p hp with ⟨hlt, hval⟩
    have hlt' : p.1 < idents.length := by
      rw [hcounts, List.length_map] at hlt
      exact hlt
    have : f p = idents.getD p.1 0 := rfl
    rw [this, List.getD_eq_getElem _ _ hlt', hval, List.getD_eq_getElem _ _ hlt]
    exact (List.getElem_map (countOf s)).symm
  have hmemIdents : ∀ p ∈ ps, f p ∈ idents := by
    intro p hp
    rcases hmemPs p hp with ⟨hlt, _⟩
    have hlt' : p.1 < idents.length := by
      rw [hcounts, List.length_map] at hlt
      exact hlt
    have : f p = idents.getD p.1 0 := rfl
    rw [this, List.getD_eq_getElem _ _ hlt']
    exact List.getElem_mem hlt'
  refine ⟨?_, ?_, ?_⟩
  · intro a ha
    rw [hkept] at ha
    rcases List.mem_map.mp ha with ⟨pa, hpa, hfa⟩
    have : pa ∈ ps := by
      have := List.drop_subset M ps
      exact this hpa
    rw [← hfa]
    exact hmemIdents pa this
  · rw [hkept, List.length_map, List.length_drop]
    have : ps.length = ((argsortL counts).map fun t => idents.getD t 0).length := by
      rw [hsortEq, List.length_map]
    omega
  · intro b hb hbnot a ha
    rcases List.mem_iff_getElem.mp hb with ⟨tb, htb, hgb⟩
    have htbc : tb < counts.length := by
      rw [hcounts, List.length_map]
      exact htb
    have hpairB : (tb, counts[tb]) ∈ counts.enum := by
      have hle : tb < counts.enum.length := by rw [List.enum_length]; exact htbc
      have := List.getElem_enum counts tb hle
      rw [← this]
      exact List.getElem_mem hle
    have hpairB' : (tb, counts[tb]) ∈ ps :=
      (List.perm_insertionSort argRel counts.enum).symm.mem_iff.mp hpairB
    have hfb : f (tb, counts[tb]) = b := by
      show idents.getD tb 0 = b
      rw [List.getD_eq_getElem _ _ htb, hgb]
    have hsplit : List.Pairwise argRel (ps.take M ++ ps.drop M) := by
      rw [List.take_append_drop]
      exact List.sorted_insertionSort argRel counts.enum
    have hdom := (List.pairwise_append.mp hsplit).2.2
    have hbtake : (tb, counts[tb]) ∈ ps.take M := by
      have hms : (tb, counts[tb]) ∈ ps.take M ++ ps.drop M := by
        rw [List.take_append_drop]
        exact hpairB'
      rcases List.mem_append.mp hms with h | h
      · exact h
      · exfalso
        apply hbnot
        rw [hkept]
        rw [← hfb]
        exact List.mem_map_of_mem f h
    rw [hkept] at ha
    rcases List.mem_map.mp ha with ⟨pa, hpa, hfa⟩
    have hpaPs : pa ∈ ps := List.drop_subset M ps hpa
    have h1 := hdom _ hbtake _ hpa
    have h2 := argRel_le h1
    have hcb : countOf s b = counts[tb] := by
      rw [← hfb]
      exact hcount_eq _ hpairB'
    have hca : countOf s a = pa.2 := by
      rw [← hfa]
      exact hcount_eq _ hpaPs
    rw [hcb, hca]
    exact h2

/-- Membership in the surviving output ids: an id survives the final
selection exactly when it was assigned before and is among the kept ids. -/
theorem mem_outIds (s : Store) (nFish : ℕ) (x : ℚ) :
    x ∈ uniqueSorted ((finalSelection s nFish).ident.filterMap id) ↔
      (x ∈ uniqueSorted (s.ident.filterMap id) ∧ x ∈ keptIdents s nFish) := by
  rw [mem_uniqueSorted, mem_uniqueSorted, List.mem_filterMap, List.mem_filterMap]
  constructor
  · rintro ⟨v, hv, he⟩
    have hid : (finalSelection s nFish).ident = s.ident.map fun w => match w with
        | some c => if (keptIdents s nFish).contains c then some c else none
        | none => none := rfl
    rw [hid] at hv
    rcases List.mem_map.mp hv with ⟨w, hw, hww⟩
    cases w with
    | none =>
      rw [← hww] at he
      exact absurd he (by simp)
    | some c =>
      have hww' : (if (keptIdents s nFish).contains c = true then some c else none) = v :=
        hww
      by_cases hc : (keptIdents s nFish).contains c
      · rw [if_pos hc] at hww'
        rw [← hww'] at he
        have he' : (some c : Option ℚ) = some x := he
        have hcx : c = x := Option.some.inj he'
        subst hcx
        exact ⟨⟨some c, hw, rfl⟩, by simpa using hc⟩
      · rw [if_neg hc] at hww'
        rw [← hww'] at he
        exact absurd he (by simp)
  · rintro ⟨⟨v, hv, he⟩, hkept⟩
    have hvx : v = some x := by
      cases v with
      | none => exact absurd he (by simp)
      | some c => rw [Option.some.inj he]
    subst hvx
    refine ⟨some x, ?_, rfl⟩
    have hid : (finalSelection s nFish).ident = s.ident.map fun w => match w with
        | some c => if (keptIdents s nFish).contains c then some c else none
        | none => none := rfl
    rw [hid]
    have : (fun w => match w with
        | some c => if (keptIdents s nFish).contains c then some c else none
        | none => none) (some x) = some x := by
      simp only []
      rw [if_pos (by simpa using hkept)]
    rw [← this]
    exact List.mem_map_of_mem _ hv

set_option maxHeartbeats 1000000 in
/-- C2 (amended). After the final selection the output contains at most
`n_fish` distinct assigned ids, and the ids kept count-dominate every
previously assigned id that was dropped — where the ranking universe is ALL
ids still assigned (non-absent) after the Overlap Resolver, regardless of the
validity mask: the selection never consults validity, so tracks invalidated
by the Power-Density Filter still compete by detection count. -/
theorem C2_selection_ranks_all_assigned_ids (s : Store) (nFish : ℕ) :
    (uniqueSorted ((finalSelection s nFish).ident.filterMap id)).length ≤ nFish ∧
      (∀ b ∈ uniqueSorted (s.ident.filterMap id),
        b ∉ uniqueSorted ((finalSelection s nFish).ident.filterMap id) →
        ∀ a ∈ uniqueSorted ((finalSelection s nFish).ident.filterMap id),
          countOf s b ≤ countOf s a) := by
  rcases keptIdents_spec s nFish with ⟨hsub, hlen, hdom⟩
  constructor
  · have hnodup := nodup_uniqueSorted ((finalSelection s nFish).ident.filterMap id)
    have hfsub : (uniqueSorted ((finalSelection s nFish).ident.filterMap id)).toFinset ⊆
        (keptIdents s nFish).toFinset := by
      intro x hx
      rw [List.mem_toFinset] at hx ⊢
      exact ((mem_outIds s nFish x).mp hx).2
    calc (uniqueSorted ((finalSelection s nFish).ident.filterMap id)).length
        = (uniqueSorted ((finalSelection s nFish).ident.filterMap id)).toFinset.card :=
          (List.toFinset_card_of_nodup hnodup).symm
      _ ≤ (keptIdents s nFish).toFinset.card := Finset.card_le_card hfsub
      _ ≤ (keptIdents s nFish).length := List.toFinset_card_le _
      _ ≤ nFish := hlen
  · intro b hb hbnot a ha
    rcases (mem_outIds s nFish a).mp ha with ⟨haid, hakept⟩
    have hbnotkept : b ∉ keptIdents s nFish := by
      intro hk
      exact hbnot ((mem_outIds s nFish b).mpr ⟨hb, hk⟩)
    exact hdom b hb hbnotkept a hakept

/-- A store entering the Power-Density Filter with a 30-detection track (id
1) whose power −200 dB fails the filter, and two valid tracks 2 and 3 that
survive it and merge in the resolver. -/
def storeRank : Store := {
  fund := [500, 500, 500, 500, 500, 504, 504] ++ List.replicate 30 800,
  idx := [0, 1, 2, 3, 4, 5, 8] ++ (List.range 30).map (fun k => 9 + k),
  ident := List.replicate 5 (some 2) ++ List.replicate 2 (some 3) ++
    List.replicate 30 (some 1),
  sign := List.replicate 7 [(-50 : ℚ)] ++ List.replicate 30 [(-200 : ℚ)],
  valid := List.replicate 37 true,
  times := (List.range 39).map (fun (k : ℕ) => 60 * (k : ℚ)) }

/-- C2 (counterexample). On `storeRank` the Power-Density Filter invalidates
track 1 (mean power −200 dB) and the Overlap Resolver merges track 3 into
track 2, so the only id valid after 4.3/4.4 is 2 — yet the final selection
with `n_fish = 1` keeps exactly the invalid id 1, because it ranks by count
over all assigned ids (30 detections beat 7) without consulting the validity
mask. -/
theorem C2_invalid_track_outranks_valid :
    (power_density_filter storeRank).valid =
        List.replicate 7 true ++ List.replicate 30 false ∧
      (∃ s2, connect_with_overlap (power_density_filter storeRank) = .ok s2 ∧
        uniqueSorted ((s2.detsWith fun k => s2.validAt k && (s2.identAt k).isSome).filterMap
          s2.identAt) = [2] ∧
        uniqueSorted ((finalSelection s2 1).ident.filterMap id) = [1]) := by
  refine ⟨by decide, ⟨(connect_with_overlap (power_density_filter storeRank)).toOption.getD
    storeRank, ?_, ?_, ?_⟩⟩ <;> decide

/-- A three-detection store with ids 1 (one detection) and 2 (two
detections). -/
def storeSel : Store := {
  fund := [500, 500, 500],
  idx := [0, 1, 2],
  ident := [some 1, some 2, some 2],
  sign := List.replicate 3 [(-50 : ℚ)],
  valid := List.replicate 3 true,
  times := [0, 60, 120] }

/-- C2 witness: the amended selection theorem applied to a concrete store
(`n_fish = 1` keeps the two-detection id 2 and count-dominates the dropped
id 1). -/
theorem C2_selection_ranks_all_assigned_ids_witness :
    (uniqueSorted ((finalSelection storeSel 1).ident.filterMap id)).length ≤ 1 ∧
      countOf storeSel 1 ≤ countOf storeSel 2 :=
  ⟨(C2_selection_ranks_all_assigned_ids storeSel 1).1,
    (C2_selection_ranks_all_assigned_ids storeSel 1).2 1 (by decide) (by decide) 2 (by decide)⟩

/-! ## 4.1 Window Density Validator (`get_valid_ids_by_freq_dist`, 31-146)

The kernel density estimate sums Gaussians, so this component lives over `ℝ`
(`Real.exp`) and is the only noncomputable part of the embedding. -/

/-- The fixed frequency axis `np.arange(400, 1200, 0.1)` (8000 points). -/
def convolveF : List ℚ := (List.range 8000).map fun (j : ℕ) => 400 + (j : ℚ) / 10

/-- One sample of the unit-height Gaussian kernel of `gauss` (`size = 1`,
`sigma = 2 * f_th`), before its row normalisation. -/
noncomputable def gaussK (fTh : ℚ) (x c : ℚ) : ℝ :=
  Real.exp (-(((x : ℝ) - (c : ℝ)) / (2 * (fTh : ℝ))) ^ 2 / 2)

/-- The row sum `s[j]` normalising detection `j`'s kernel over the grid. -/
noncomputable def kerSum (fTh c : ℚ) : ℝ := (convolveF.map fun x => gaussK fTh x c).sum

/-- `kde[i]`: the sum over detections of the row-normalised kernels. -/
noncomputable def kdeAt (fTh : ℚ) (ff : List ℚ) (x : ℚ) : ℝ :=
  (ff.map fun c => gaussK fTh x c / kerSum fTh c).sum

/-- `np.max` of a list of (nonnegative) reals. -/
noncomputable def foldrMax (l : List ℝ) : ℝ := l.foldr max 0

/-- `np.max(g)`: the largest entry of the normalised kernel matrix. -/
noncomputable def gMax (fTh : ℚ) (ff : List ℚ) : ℝ :=
  foldrMax (ff.map fun c => foldrMax (convolveF.map fun x => gaussK fTh x c / kerSum fTh c))

/-- `len(times[(times >= times[0]) & (times < times[0] + stride)])`. -/
def timesInFirstStride (s : Store) (stride : ℚ) : ℕ :=
  (s.times.filter fun t =>
    decide (s.times.headD 0 ≤ t) && decide (t < s.times.headD 0 + stride)).length

/-- The freshly derived threshold of lines 58-63:
`np.max(g) * len(times in first stride) * 0.05`. -/
noncomputable def computedKdeTh (s : Store) (stride fTh : ℚ) (ff : List ℚ) : ℝ :=
  gMax fTh ff * (timesInFirstStride s stride : ℝ) * (1 / 20)

/-- `ff`: the frequencies of assigned detections inside the window. -/
def ffWindow (s : Store) (i0 stride : ℚ) : List ℚ :=
  (s.detsWith fun k => (s.identAt k).isSome && windowMask s i0 stride k).map s.fundAt

/-- `f = fund_v[(ident_v == id) & window]`. -/
def fundOfIdWindow (s : Store) (i0 stride : ℚ) (id : ℚ) : List ℚ :=
  (s.detsWith fun k => decide (s.identAt k = some id) && windowMask s i0 stride k).map
    s.fundAt

/-- The distinct assigned ids inside the window. -/
def windowIds (s : Store) (i0 stride : ℚ) : List ℚ :=
  uniqueSorted ((s.detsWith fun k =>
    (s.identAt k).isSome && windowMask s i0 stride k).filterMap s.identAt)

/-- Membership of a grid frequency in `valid_f = convolve_f[kde > kde_th]`. -/
def IsSupported (fTh : ℚ) (ff : List ℚ) (th : ℝ) (x : ℚ) : Prop :=
  x ∈ convolveF ∧ th < kdeAt fTh ff x

/-- Validity of an id in the window (lines 101-126): some detection frequency
lies within half a grid step (0.05 Hz) of a supported grid point — the
existential restatement of `np.min(np.abs(valid_f - f[:, np.newaxis])) <=
0.05`, which also covers the empty-support guard (an empty set has no
witness, matching the `np.inf` fallback) — or the id was valid in the
previous window (hysteresis). -/
def IsValidId (s : Store) (i0 stride fTh : ℚ) (ff : List ℚ) (th : ℝ) (old : List ℚ)
    (id : ℚ) : Prop :=
  (∃ v : ℚ, IsSupported fTh ff th v ∧
    ∃ fe ∈ fundOfIdWindow s i0 stride id, |v - fe| ≤ 1 / 20) ∨ id ∈ old

open Classical in
/-- The `valid_ids` table built by the loop of lines 96-133: ids with more
than one window detection that pass the validity test, each with its median
window frequency and global first-occurrence time. -/
noncomputable def validatorRows (s : Store) (i0 stride fTh : ℚ) (ff : List ℚ) (th : ℝ)
    (old : List ℚ) : List IdRow :=
  (windowIds s i0 stride).filterMap fun id =>
    if (fundOfIdWindow s i0 stride id).length ≤ 1 then none
    else if IsValidId s i0 stride fTh ff th old id then
      some ⟨id, medianQ (fundOfIdWindow s i0 stride id),
        s.times.getD ((s.idxOf id).headD 0) 0⟩
    else none

/-- The `valid_v[ident_v == id] = 1` updates accumulated over the valid ids
(line 132; the update is global, not window-restricted). -/
def setValidForIds (s : Store) (ids : List ℚ) : List Bool :=
  mapIdxL (fun k v =>
    if (match s.identAt k with | some c => ids.contains c | none => false) then true else v)
    0 s.valid

open Classical in
/-- `get_valid_ids_by_freq_dist` (lines 31-146). An empty window returns
`(None, old_valid_ids)` — the incoming threshold is NOT passed through — and
a falsy (`None` or `0.0`) threshold is recomputed from the window's kernel
matrix. -/
noncomputable def get_valid_ids_by_freq_dist (s : Store) (old : List ℚ)
    (i0 stride fTh : ℚ) (kdeTh : Option ℝ) : Option ℝ × ValidIdsArr × List Bool :=
  if (ffWindow s i0 stride).isEmpty then (none, .flat old, s.valid)
  else
    let th : ℝ := match kdeTh with
      | none => computedKdeTh s stride fTh (ffWindow s i0 stride)
      | some t => if t = 0 then computedKdeTh s stride fTh (ffWindow s i0 stride) else t
    let rows := validatorRows s i0 stride fTh (ffWindow s i0 stride) th old
    (some th, .rows rows, setValidForIds s (rows.map (·.id)))

/-! ## Orchestrator (`main`, clean_up.py 736-905, post-load) -/

/-- One window iteration of the sweep (lines 755-780): the validator then the
similarity merger, threaded through `(kde_th, previous_valid_ids, store)`. -/
noncomputable def sweepStep (fTh stride : ℚ) (st : Option ℝ × List ℚ × Store) (i0 : ℚ) :
    Except String (Option ℝ × List ℚ × Store) :=
  let r := get_valid_ids_by_freq_dist st.2.2 st.2.1 i0 stride fTh st.1
  let s1 : Store := { st.2.2 with valid := r.2.2 }
  match connect_by_similarity s1 r.2.1 fTh i0 stride with
  | .error e => .error e
  | .ok q => .ok (r.1, q.1, q.2)

noncomputable def sweepLoop (fTh stride : ℚ) :
    List ℚ → (Option ℝ × List ℚ × Store) → Except String (Option ℝ × List ℚ × Store)
  | [], st => .ok st
  | i0 :: rest, st =>
    match sweepStep fTh stride st i0 with
    | .error e => .error e
    | .ok st' => sweepLoop fTh stride rest st'

/-- The window starts `np.arange(0, times[-1], int(stride * (1 - overlap)))`
with the defaults `stride = 10 * 60` and `overlap = 0.2` (step 480 s). -/
def windowStarts (s : Store) : List ℚ := arangeQ (s.times.getLastD 0) 480

/-- The sweep of lines 755-780 starting from `kde_th = None` and
`previous_valid_ids = np.array([])`. -/
noncomputable def sweep (s : Store) : Except String Store :=
  match sweepLoop (5 / 2) 600 (windowStarts s) (none, [], s) with
  | .error e => .error e
  | .ok st => .ok st.2.2

/-- The engine (`main` after loading and the one-time decibel conversion):
`valid_v = np.zeros_like(ident_v)`, the window sweep (4.1 then 4.2 per
window), `power_density_filter`, `connect_with_overlap`, and the final
top-`n_fish` selection. -/
noncomputable def engine (s : Store) (nFish : ℕ) : Except String Store :=
  match sweep { s with valid := List.replicate s.ident.length false } with
  | .error e => .error e
  | .ok s1 =>
    match connect_with_overlap (power_density_filter s1) with
    | .error e => .error e
    | .ok s2 => .ok (finalSelection s2 nFish)

/-! ## Bounds on the kernel density estimate -/

theorem gaussK_pos (fTh x c : ℚ) : 0 < gaussK fTh x c := Real.exp_pos _

theorem gaussK_le_one (fTh x c : ℚ) : gaussK fTh x c ≤ 1 := by
  unfold gaussK
  rw [Real.exp_le_one_iff]
  have h := sq_nonneg (((x : ℚ) : ℝ) - ((c : ℚ) : ℝ))
  have h2 := sq_nonneg ((((x : ℚ) : ℝ) - ((c : ℚ) : ℝ)) / (2 * ((fTh : ℚ) : ℝ)))
  linarith

theorem convolveF_ne_nil : convolveF ≠ [] := by
  intro h
  have := congrArg List.length h
  rw [convolveF, List.length_map, List.length_range] at this
  simp at this

theorem kerSum_pos (fTh c : ℚ) : 0 < kerSum fTh c := by
  unfold kerSum
  apply List.sum_pos
  · intro x hx
    rcases List.mem_map.mp hx with ⟨y, _, rfl⟩
    exact gaussK_pos fTh y c
  · intro h
    exact convolveF_ne_nil (List.map_eq_nil_iff.mp h)

theorem foldrMax_le (l : List ℝ) (B : ℝ) (hB : 0 ≤ B) :
    (∀ x ∈ l, x ≤ B) → foldrMax l ≤ B := by
  unfold foldrMax
  induction l with
  | nil => intro _; simpa using hB
  | cons a t ih =>
    intro h
    simp only [List.foldr_cons]
    exact max_le (h a (List.mem_cons_self a t))
      (ih fun x hx => h x (List.mem_cons_of_mem a hx))

theorem gMax_le_sum_inv (fTh : ℚ) (ff : List ℚ) :
    gMax fTh ff ≤ (ff.map fun c => 1 / kerSum fTh c).sum := by
  have hnn : (0 : ℝ) ≤ (ff.map fun c => 1 / kerSum fTh c).sum := by
    apply List.sum_nonneg
    intro x hx
    rcases List.mem_map.mp hx with ⟨c, _, rfl⟩
    exact one_div_nonneg.mpr (kerSum_pos fTh c).le
  unfold gMax
  apply foldrMax_le _ _ hnn
  intro x hx
  rcases List.mem_map.mp hx with ⟨c, hc, rfl⟩
  have h1 : foldrMax (convolveF.map fun y => gaussK fTh y c / kerSum fTh c) ≤
      1 / kerSum fTh c := by
    apply foldrMax_le
    · exact one_div_nonneg.mpr (kerSum_pos fTh c).le
    · intro y hy
      rcases List.mem_map.mp hy with ⟨z, _, rfl⟩
      exact div_le_div_of_nonneg_right (gaussK_le_one fTh z c) (kerSum_pos fTh c).le
  refine h1.trans ?_
  apply List.single_le_sum
  · intro y hy
    rcases List.mem_map.mp hy with ⟨c', _, rfl⟩
    exact one_div_nonneg.mpr (kerSum_pos fTh c').le
  · exact List.mem_map_of_mem _ hc

theorem exp_neg_8_25 : (17 / 25 : ℝ) ≤ Real.exp (-(8 / 25)) := by
  have h := Real.add_one_le_exp (-(8 / 25 : ℝ))
  linarith

/-! ## Concrete stores for the whole engine

Both stores use one time bin per minute (`dps = 1/60`) and place every
frequency on the kernel grid (a multiple of 0.1 Hz inside [400, 1200)), so
all store-level arithmetic stays rational and only the kernel-density
threshold comparison needs real analysis. -/

/-- Three tracks inside one 0-to-600 s window: id 1 with five detections at
500 Hz (bins 0-4), id 2 with two at 504 Hz (bins 5 and 8), and id 3 with a
single detection at 500 Hz that claims bin 2 — the same time bin as id 1's
third detection. -/
def storeDup : Store := {
  fund := [500, 500, 500, 500, 500, 504, 504, 500],
  idx := [0, 1, 2, 3, 4, 5, 8, 2],
  ident := [some 1, some 1, some 1, some 1, some 1, some 2, some 2, some 3],
  sign := List.replicate 8 [(-50 : ℚ)],
  valid := List.replicate 8 false,
  times := (List.range 9).map fun (k : ℕ) => 60 * (k : ℚ) }

/-- The window-0 frequencies `fund_v[window]` of `storeDup`. -/
def ffDup : List ℚ := [500, 500, 500, 500, 500, 504, 504, 500]

/-- The window sweep validates ids 1 and 2 but not the single-detection
id 3. -/
def storeDupSwept : Store :=
  { storeDup with valid := [true, true, true, true, true, true, true, false] }

/-- One five-detection track at 500 Hz over bins 0-4, with `times` reaching
540 s, so the sweep has a second window start at 480 s that contains no
detection. -/
def storeC5 : Store := {
  fund := [500, 500, 500, 500, 500],
  idx := [0, 1, 2, 3, 4],
  ident := List.replicate 5 (some 1),
  sign := List.replicate 5 [(-50 : ℚ)],
  valid := List.replicate 5 false,
  times := (List.range 10).map fun (k : ℕ) => 60 * (k : ℚ) }

/-- The window-0 frequencies of `storeC5`. -/
def ffC5 : List ℚ := [500, 500, 500, 500, 500]

/-- `storeC5` after the first window validated its only track. -/
def storeC5Valid : Store := { storeC5 with valid := [true, true, true, true, true] }

/-! ## Kernel values at the grid frequencies involved -/

theorem gaussK_same (fTh c : ℚ) : gaussK fTh c c = 1 := by
  unfold gaussK
  simp

theorem gaussK_500_504 : gaussK (5 / 2) 500 504 = Real.exp (-(8 / 25)) := by
  unfold gaussK
  norm_num

theorem gaussK_504_500 : gaussK (5 / 2) 504 500 = Real.exp (-(8 / 25)) := by
  unfold gaussK
  norm_num

theorem mem_convolveF_500 : (500 : ℚ) ∈ convolveF :=
  List.mem_map.mpr ⟨1000, List.mem_range.mpr (by norm_num), by norm_num⟩

theorem mem_convolveF_504 : (504 : ℚ) ∈ convolveF :=
  List.mem_map.mpr ⟨1040, List.mem_range.mpr (by norm_num), by norm_num⟩

/-! ## The computed threshold lies below the KDE peaks

With `ff = ffDup` the KDE at 500 Hz is `6/a + 2e/b` and at 504 Hz is
`6e/a + 2/b`, where `a`, `b` are the two row sums and `e = exp(-8/25) ≥
17/25`, while the threshold is at most `(6/a + 2/b) · 9/20`; both
comparisons are linear in `1/a`, `1/b` and `e/b` (resp. `e/a`). -/

theorem kdeTh_lt_kde_dup_500 :
    computedKdeTh storeDup 600 (5 / 2) ffDup < kdeAt (5 / 2) ffDup 500 := by
  have ha := kerSum_pos (5 / 2) 500
  have hb := kerSum_pos (5 / 2) 504
  have hu : (0 : ℝ) < 1 / kerSum (5 / 2) 500 := one_div_pos.mpr ha
  have hv : (0 : ℝ) < 1 / kerSum (5 / 2) 504 := one_div_pos.mpr hb
  have hgb := gMax_le_sum_inv (5 / 2) ffDup
  have hsum : (ffDup.map fun c => 1 / kerSum (5 / 2) c).sum
      = 6 * (1 / kerSum (5 / 2) 500) + 2 * (1 / kerSum (5 / 2) 504) := by
    simp only [ffDup, List.map_cons, List.map_nil, List.sum_cons, List.sum_nil]
    ring
  rw [hsum] at hgb
  have hk : kdeAt (5 / 2) ffDup 500
      = 6 * (1 / kerSum (5 / 2) 500)
        + 2 * (Real.exp (-(8 / 25)) * (1 / kerSum (5 / 2) 504)) := by
    simp only [kdeAt, ffDup, List.map_cons, List.map_nil, List.sum_cons, List.sum_nil,
      gaussK_same, gaussK_500_504]
    ring
  have hts : ((timesInFirstStride storeDup 600 : ℕ) : ℝ) = 9 := by
    norm_num [show timesInFirstStride storeDup 600 = 9 from by decide]
  have hev : (17 / 25 : ℝ) * (1 / kerSum (5 / 2) 504)
      ≤ Real.exp (-(8 / 25)) * (1 / kerSum (5 / 2) 504) :=
    mul_le_mul_of_nonneg_right exp_neg_8_25 hv.le
  unfold computedKdeTh
  rw [hk, hts]
  linarith

theorem kdeTh_lt_kde_dup_504 :
    computedKdeTh storeDup 600 (5 / 2) ffDup < kdeAt (5 / 2) ffDup 504 := by
  have ha := kerSum_pos (5 / 2) 500
  have hb := kerSum_pos (5 / 2) 504
  have hu : (0 : ℝ) < 1 / kerSum (5 / 2) 500 := one_div_pos.mpr ha
  have hv : (0 : ℝ) < 1 / kerSum (5 / 2) 504 := one_div_pos.mpr hb
  have hgb := gMax_le_sum_inv (5 / 2) ffDup
  have hsum : (ffDup.map fun c => 1 / kerSum ( 5 / 2) c).sum
      = 6 * (1 / kerSum (5 / 2) 500) + 2 * (1 / kerSum (5 / 2) 504) := by
    simp only [ffDup, List.map_cons, List.map_nil, List.sum_cons, List.sum_nil]
    ring
  rw [hsum] at hgb
  have hk : kdeAt (5 / 2) ffDup 504
      = 6 * (Real.exp (-(8 / 25)) * (1 / kerSum (5 / 2) 500))
        + 2 * (1 / kerSum (5 / 2) 504) := by
    simp only [kdeAt, ffDup, List.map_cons, List.map_nil, List.sum_cons, List.sum_nil,
      gaussK_same, gaussK_504_500]
    ring
  have hts : ((timesInFirstStride storeDup 600 : ℕ) : ℝ) = 9 := by
    norm_num [show timesInFirstStride storeDup 600 = 9 from by decide]
  have heu : (17 / 25 : ℝ) * (1 / kerSum (5 / 2) 500)
      ≤ Real.exp (-(8 / 25)) * (1 / kerSum (5 / 2) 500) :=
    mul_le_mul_of_nonneg_right exp_neg_8_25 hu.le
  unfold computedKdeTh
  rw [hk, hts]
  linarith

theorem kdeTh_lt_kde_C5 :
    computedKdeTh storeC5 600 (5 / 2) ffC5 < kdeAt (5 / 2) ffC5 500 := by
  have ha := kerSum_pos (5 / 2) 500
  have hu : (0 : ℝ) < 1 / kerSum (5 / 2) 500 := one_div_pos.mpr ha
  have hgb := gMax_le_sum_inv (5 / 2) ffC5
  have hsum : (ffC5.map fun c => 1 / kerSum (5 / 2) c).sum
      = 5 * (1 / kerSum (5 / 2) 500) := by
    simp only [ffC5, List.map_cons, List.map_nil, List.sum_cons, List.sum_nil]
    ring
  rw [hsum] at hgb
  have hk : kdeAt (5 / 2) ffC5 500 = 5 * (1 / kerSum (5 / 2) 500) := by
    simp only [kdeAt, ffC5, List.map_cons, List.map_nil, List.sum_cons, List.sum_nil,
      gaussK_same]
    ring
  have hts : ((timesInFirstStride storeC5 600 : ℕ) : ℝ) = 10 := by
    norm_num [show timesInFirstStride storeC5 600 = 10 from by decide]
  unfold computedKdeTh
  rw [hk, hts]
  linarith

/-! ## The validator's verdict on the concrete windows -/

theorem isValid_dup_1 :
    IsValidId storeDup 0 600 (5 / 2) ffDup
      (computedKdeTh storeDup 600 (5 / 2) ffDup) [] 1 :=
  Or.inl ⟨500, ⟨mem_convolveF_500, kdeTh_lt_kde_dup_500⟩, 500, by decide, by norm_num⟩

theorem isValid_dup_2 :
    IsValidId storeDup 0 600 (5 / 2) ffDup
      (computedKdeTh storeDup 600 (5 / 2) ffDup) [] 2 :=
  Or.inl ⟨504, ⟨mem_convolveF_504, kdeTh_lt_kde_dup_504⟩, 504, by decide, by norm_num⟩

theorem isValid_C5_1 :
    IsValidId storeC5 0 600 (5 / 2) ffC5
      (computedKdeTh storeC5 600 (5 / 2) ffC5) [] 1 :=
  Or.inl ⟨500, ⟨mem_convolveF_500, kdeTh_lt_kde_C5⟩, 500, by decide, by norm_num⟩

theorem validatorRows_dup :
    validatorRows storeDup 0 600 (5 / 2) ffDup
      (computedKdeTh storeDup 600 (5 / 2) ffDup) [] = [⟨1, 500, 0⟩, ⟨2, 504, 300⟩] := by
  unfold validatorRows
  rw [show windowIds storeDup 0 600 = [1, 2, 3] from by decide]
  simp only [List.filterMap_cons, List.filterMap_nil]
  rw [if_neg (by decide : ¬ ((fundOfIdWindow storeDup 0 600 1).length ≤ 1)),
    if_pos isValid_dup_1,
    if_neg (by decide : ¬ ((fundOfIdWindow storeDup 0 600 2).length ≤ 1)),
    if_pos isValid_dup_2,
    if_pos (by decide : (fundOfIdWindow storeDup 0 600 3).length ≤ 1)]
  decide

theorem validatorRows_C5 :
    validatorRows storeC5 0 600 (5 / 2) ffC5
      (computedKdeTh storeC5 600 (5 / 2) ffC5) [] = [⟨1, 500, 0⟩] := by
  unfold validatorRows
  rw [show windowIds storeC5 0 600 = [1] from by decide]
  simp only [List.filterMap_cons, List.filterMap_nil]
  rw [if_neg (by decide : ¬ ((fundOfIdWindow storeC5 0 600 1).length ≤ 1)),
    if_pos isValid_C5_1]
  decide

/-! ## The validator calls of the two sweeps -/

theorem gvi_dup :
    get_valid_ids_by_freq_dist storeDup [] 0 600 (5 / 2) none
      = (some (computedKdeTh storeDup 600 (5 / 2) ffDup),
          .rows [⟨1, 500, 0⟩, ⟨2, 504, 300⟩],
          [true, true, true, true, true, true, true, false]) := by
  show (some (computedKdeTh storeDup 600 (5 / 2) ffDup),
      ValidIdsArr.rows (validatorRows storeDup 0 600 (5 / 2) ffDup
        (computedKdeTh storeDup 600 (5 / 2) ffDup) []),
      setValidForIds storeDup ((validatorRows storeDup 0 600 (5 / 2) ffDup
        (computedKdeTh storeDup 600 (5 / 2) ffDup) []).map (·.id))) = _
  rw [validatorRows_dup]
  congr 1

theorem gvi_C5 :
    get_valid_ids_by_freq_dist storeC5 [] 0 600 (5 / 2) none
      = (some (computedKdeTh storeC5 600 (5 / 2) ffC5),
          .rows [⟨1, 500, 0⟩], [true, true, true, true, true]) := by
  show (some (computedKdeTh storeC5 600 (5 / 2) ffC5),
      ValidIdsArr.rows (validatorRows storeC5 0 600 (5 / 2) ffC5
        (computedKdeTh storeC5 600 (5 / 2) ffC5) []),
      setValidForIds storeC5 ((validatorRows storeC5 0 600 (5 / 2) ffC5
        (computedKdeTh storeC5 600 (5 / 2) ffC5) []).map (·.id))) = _
  rw [validatorRows_C5]
  congr 1

/-- The second `storeC5` window is empty: the validator hands the 1-D
previous-id array on, whatever the incoming threshold was. -/
theorem gvi_C5_480 (kt : Option ℝ) :
    get_valid_ids_by_freq_dist storeC5Valid [1] 480 600 (5 / 2) kt
      = (none, .flat [1], storeC5Valid.valid) := by
  unfold get_valid_ids_by_freq_dist
  rw [if_pos (by decide : ((ffWindow storeC5Valid 480 600).isEmpty) = true)]

/-! ## Stepping the sweep -/

theorem sweepLoop_cons_ok {fTh stride i0 : ℚ} {rest : List ℚ}
    {st st' : Option ℝ × List ℚ × Store} (h : sweepStep fTh stride st i0 = .ok st') :
    sweepLoop fTh stride (i0 :: rest) st = sweepLoop fTh stride rest st' := by
  conv_lhs => rw [sweepLoop]
  rw [h]

theorem sweepLoop_cons_err {fTh stride i0 : ℚ} {rest : List ℚ}
    {st : Option ℝ × List ℚ × Store} {e : String}
    (h : sweepStep fTh stride st i0 = .error e) :
    sweepLoop fTh stride (i0 :: rest) st = .error e := by
  conv_lhs => rw [sweepLoop]
  rw [h]

theorem sweepStep_dup_0 :
    sweepStep (5 / 2) 600 (none, [], storeDup) 0
      = .ok (some (computedKdeTh storeDup 600 (5 / 2) ffDup), [1, 2], storeDupSwept) := by
  have hsim : connect_by_similarity
      { storeDup with valid := [true, true, true, true, true, true, true, false] }
      (.rows [⟨1, 500, 0⟩, ⟨2, 504, 300⟩]) (5 / 2) 0 600
      = .ok ([1, 2], storeDupSwept) := by decide
  unfold sweepStep
  simp only [gvi_dup]
  rw [hsim]

theorem sweepStep_C5_0 :
    sweepStep (5 / 2) 600 (none, [], storeC5) 0
      = .ok (some (computedKdeTh storeC5 600 (5 / 2) ffC5), [1], storeC5Valid) := by
  have hsim : connect_by_similarity
      { storeC5 with valid := [true, true, true, true, true] }
      (.rows [⟨1, 500, 0⟩]) (5 / 2) 0 600 = .ok ([1], storeC5Valid) := by decide
  unfold sweepStep
  simp only [gvi_C5]
  rw [hsim]

theorem sweepStep_C5_480 (kt : Option ℝ) :
    sweepStep (5 / 2) 600 (kt, [1], storeC5Valid) 480
      = .error "IndexError: too many indices for array: valid_ids is 1-dimensional" := by
  unfold sweepStep
  simp only [gvi_C5_480]
  rfl

theorem sweep_dup : sweep storeDup = .ok storeDupSwept := by
  unfold sweep
  rw [show windowStarts storeDup = [0] from by decide, sweepLoop_cons_ok sweepStep_dup_0]
  rfl

theorem sweep_C5 :
    sweep storeC5
      = .error "IndexError: too many indices for array: valid_ids is 1-dimensional" := by
  unfold sweep
  rw [show windowStarts storeC5 = [0, 480] from by decide,
    sweepLoop_cons_ok sweepStep_C5_0,
    sweepLoop_cons_err (sweepStep_C5_480 (some (computedKdeTh storeC5 600 (5 / 2) ffC5)))]

/-! ## The whole engine on the concrete stores -/

/-- The final `storeDup` state: the resolver has folded id 2 into id 1, and
the top-2 selection keeps ids 1 and 3 — resurrecting the never-validated
id 3 — with every detection marked valid. -/
def storeDupFinal : Store :=
  { storeDup with
    ident := [some 1, some 1, some 1, some 1, some 1, some 1, some 1, some 3],
    valid := List.replicate 8 true }

theorem engine_dup : engine storeDup 2 = .ok storeDupFinal := by
  unfold engine
  rw [show ({ storeDup with valid := List.replicate storeDup.ident.length false } : Store)
      = storeDup from by decide, sweep_dup]
  decide

/-- C1. The spec's duplicate-claim invariant fails on the code: on `storeDup`
the engine completes normally, yet the surviving ids 1 and 3 are both valid
and both claim time bin 2 (detections 2 and 7). The final top-`n_fish`
selection (clean_up.py lines 832-854) ranks every assigned id regardless of
its validity flag and rebuilds the mask from the id column alone, so the
never-validated id 3 — which the resolver, working only on valid tracks,
could not reach — survives next to id 1. -/
theorem C1_duplicate_claims_left_standing :
    ∃ s', engine storeDup 2 = .ok s'
      ∧ s'.identAt 2 = some 1 ∧ s'.identAt 7 = some 3
      ∧ s'.validAt 2 = true ∧ s'.validAt 7 = true
      ∧ s'.idxAt 2 = 2 ∧ s'.idxAt 7 = 2 :=
  ⟨storeDupFinal, engine_dup, by decide, by decide, by decide, by decide,
    by decide, by decide⟩

/-- C5. The spec says an empty sliding window passes both the threshold and
the previous valid-id set through unchanged and the pipeline continues; on
the code the validator returns the previous ids as a 1-D array (and `None`
for the threshold), and the similarity merger's `valid_ids[:, 1]`
(clean_up.py line 157) then raises `IndexError`, aborting the engine. -/
theorem C5_empty_window_aborts_pipeline :
    ffWindow storeC5Valid 480 600 = [] ∧
      engine storeC5 2
        = .error "IndexError: too many indices for array: valid_ids is 1-dimensional" := by
  constructor
  · decide
  · unfold engine
    rw [show ({ storeC5 with valid := List.replicate storeC5.ident.length false } : Store)
        = storeC5 from by decide, sweep_C5]

/-! ## Claim C3: what every stage leaves untouched

`SameFrame s t` says the stage that turned `s` into `t` kept the frequency,
time-index, power and time-bin arrays and the lengths of the id column and
validity mask: it only relabelled and re-marked. -/

def SameFrame (s t : Store) : Prop :=
  t.fund = s.fund ∧ t.idx = s.idx ∧ t.sign = s.sign ∧ t.times = s.times ∧
    t.ident.length = s.ident.length ∧ t.valid.length = s.valid.length

theorem sameFrame_refl (s : Store) : SameFrame s s := ⟨rfl, rfl, rfl, rfl, rfl, rfl⟩

theorem sameFrame_trans {s t u : Store} (h1 : SameFrame s t) (h2 : SameFrame t u) :
    SameFrame s u :=
  ⟨h2.1.trans h1.1, h2.2.1.trans h1.2.1, h2.2.2.1.trans h1.2.2.1,
    h2.2.2.2.1.trans h1.2.2.2.1, h2.2.2.2.2.1.trans h1.2.2.2.2.1,
    h2.2.2.2.2.2.trans h1.2.2.2.2.2⟩

theorem frame_simApply (s : Store) (r0 r1 : IdRow) (less : ℚ) (rs : List IdRow) :
    SameFrame s (simApply s r0 r1 less rs).2 := by
  by_cases h : r0.t0 < r1.t0
  · simp only [simApply]
    rw [if_pos h]
    exact ⟨rfl, rfl, rfl, rfl, by simp [mapIdxL_length], by simp [mapIdxL_length]⟩
  · simp only [simApply]
    rw [if_neg h]
    exact ⟨rfl, rfl, rfl, rfl, by simp [mapIdxL_length], by simp [mapIdxL_length]⟩

theorem frame_simBody (s : Store) (fTh i0 stride : ℚ) (rs : List IdRow) (p : ℕ × ℕ) :
    SameFrame s (simBody s fTh i0 stride rs p).2 := by
  unfold simBody
  split
  · exact sameFrame_refl s
  · split
    · exact sameFrame_refl s
    · exact frame_simApply s _ _ _ rs

theorem frame_simLoop (fTh i0 stride : ℚ) (ps : List (ℕ × ℕ)) :
    ∀ rs s, SameFrame s (simLoop fTh i0 stride ps rs s).2 := by
  induction ps with
  | nil => intro rs s; exact sameFrame_refl s
  | cons p rest ih =>
    intro rs s
    show SameFrame s (if fTh < |(rs.getD p.1 ⟨0, 0, 0⟩).medf - (rs.getD p.2 ⟨0, 0, 0⟩).medf|
      then (rs, s)
      else simLoop fTh i0 stride rest (simBody s fTh i0 stride rs p).1
        (simBody s fTh i0 stride rs p).2).2
    split
    · exact sameFrame_refl s
    · exact sameFrame_trans (frame_simBody s fTh i0 stride rs p) (ih _ _)

theorem frame_connect_by_similarity {s : Store} {va : ValidIdsArr} {fTh i0 stride : ℚ}
    {q : List ℚ × Store} (h : connect_by_similarity s va fTh i0 stride = .ok q) :
    SameFrame s q.2 := by
  cases va with
  | flat l =>
    cases l with
    | nil =>
      have h' : (Except.ok (([], s) : List ℚ × Store) : Except String (List ℚ × Store))
          = .ok q := h
      injection h' with h2
      have hs : s = q.2 := congrArg Prod.snd h2
      rw [← hs]
      exact sameFrame_refl s
    | cons a t => exact Except.noConfusion h
  | rows l =>
    cases l with
    | nil =>
      have h' : (Except.ok (([], s) : List ℚ × Store) : Except String (List ℚ × Store))
          = .ok q := h
      injection h' with h2
      have hs : s = q.2 := congrArg Prod.snd h2
      rw [← hs]
      exact sameFrame_refl s
    | cons r rs' =>
      have h' : Except.ok
          (uniqueSorted ((simLoop fTh i0 stride (simPairs (r :: rs')) (r :: rs') s).1.map
            (·.id)),
            (simLoop fTh i0 stride (simPairs (r :: rs')) (r :: rs') s).2) = .ok q := h
      injection h' with h2
      have hs : (simLoop fTh i0 stride (simPairs (r :: rs')) (r :: rs') s).2 = q.2 :=
        congrArg Prod.snd h2
      rw [← hs]
      exact frame_simLoop fTh i0 stride (simPairs (r :: rs')) (r :: rs') s

theorem gvi_valid_length (s : Store) (old : List ℚ) (i0 stride fTh : ℚ)
    (kdeTh : Option ℝ) :
    (get_valid_ids_by_freq_dist s old i0 stride fTh kdeTh).2.2.length = s.valid.length := by
  unfold get_valid_ids_by_freq_dist
  split
  · rfl
  · show (setValidForIds s _).length = s.valid.length
    exact mapIdxL_length _ _ _

theorem frame_sweepStep {fTh stride i0 : ℚ} {st st' : Option ℝ × List ℚ × Store}
    (h : sweepStep fTh stride st i0 = .ok st') : SameFrame st.2.2 st'.2.2 := by
  simp only [sweepStep] at h
  split at h
  · exact Except.noConfusion h
  · rename_i q heq
    injection h with h2
    have hs : st'.2.2 = q.2 := by rw [← h2]
    rw [hs]
    exact sameFrame_trans
      (⟨rfl, rfl, rfl, rfl, rfl, gvi_valid_length st.2.2 st.2.1 i0 stride fTh st.1⟩ :
        SameFrame st.2.2 { st.2.2 with
          valid := (get_valid_ids_by_freq_dist st.2.2 st.2.1 i0 stride fTh st.1).2.2 })
      (frame_connect_by_similarity heq)

theorem frame_sweepLoop {fTh stride : ℚ} (l : List ℚ) :
    ∀ st st', sweepLoop fTh stride l st = .ok st' → SameFrame st.2.2 st'.2.2 := by
  induction l with
  | nil =>
    intro st st' h
    have h' : (Except.ok st : Except String (Option ℝ × List ℚ × Store)) = .ok st' := h
    injection h' with h2
    rw [← h2]
    exact sameFrame_refl _
  | cons i0 rest ih =>
    intro st st' h
    cases hss : sweepStep fTh stride st i0 with
    | error e =>
      rw [sweepLoop_cons_err hss] at h
      exact Except.noConfusion h
    | ok q =>
      rw [sweepLoop_cons_ok hss] at h
      exact sameFrame_trans (frame_sweepStep hss) (ih q st' h)

theorem frame_pdfRejectId (s : Store) (id : ℚ) : SameFrame s (pdfRejectId s id) :=
  ⟨rfl, rfl, rfl, rfl, rfl, mapIdxL_length _ _ _⟩

theorem frame_applyResplit (s : Store) (id : ℚ) (segs : List (ℤ × ℤ)) :
    SameFrame s (applyResplit s id segs) :=
  ⟨rfl, rfl, rfl, rfl, resplit_foldl_length _ _ _ _ _, mapIdxL_length _ _ _⟩

theorem frame_pdfStep (dps : ℚ) (s : Store) (id : ℚ) : SameFrame s (pdfStep dps s id) := by
  unfold pdfStep
  split
  · exact sameFrame_refl s
  · split
    · split
      · split
        · exact sameFrame_trans (frame_pdfRejectId s id) (frame_applyResplit _ id _)
        · exact frame_pdfRejectId s id
      · exact frame_pdfRejectId s id
    · exact sameFrame_refl s

theorem frame_pdf_fold (dps : ℚ) (ids : List ℚ) :
    ∀ s, SameFrame s (ids.foldl (pdfStep dps) s) := by
  induction ids with
  | nil => intro s; exact sameFrame_refl s
  | cons id rest ih =>
    intro s
    exact sameFrame_trans (frame_pdfStep dps s id) (ih (pdfStep dps s id))

theorem frame_power_density_filter (s : Store) : SameFrame s (power_density_filter s) :=
  frame_pdf_fold (dpsOf s) (pdfIds s) s

theorem applyRegionMerge_length (s : Store) (delId idFor firstId lastId : ℚ)
    (s1 s2 : ℕ) :
    (applyRegionMerge s delId idFor firstId lastId s1 s2).length = s.ident.length := by
  unfold applyRegionMerge
  split
  · rw [mapIdxL_length, mapIdxL_length, mapIdxL_length]
  · rw [mapIdxL_length, mapIdxL_length]

theorem frame_resolveBody (st : List OverlapCand × Store) (n : ℕ) :
    SameFrame st.2 (resolveBody st n).2 := by
  simp only [resolveBody]
  split
  · exact sameFrame_refl _
  · split
    · exact sameFrame_refl _
    · exact ⟨rfl, rfl, rfl, rfl, by simp, rfl⟩
    · exact ⟨rfl, rfl, rfl, rfl, by simp [applyRegionMerge_length], rfl⟩

theorem frame_resolve_fold (l : List ℕ) :
    ∀ st : List OverlapCand × Store, SameFrame st.2 (l.foldl resolveBody st).2 := by
  induction l with
  | nil => intro st; exact sameFrame_refl _
  | cons n rest ih =>
    intro st
    exact sameFrame_trans (frame_resolveBody st n) (ih (resolveBody st n))

theorem frame_connect_with_overlap {s s' : Store}
    (h : connect_with_overlap s = .ok s') : SameFrame s s' := by
  simp only [connect_with_overlap] at h
  split at h
  · exact Except.noConfusion h
  · injection h with h2
    rw [← h2]
    exact frame_resolve_fold _ _

theorem frame_finalSelection (s : Store) (n : ℕ) :
    (finalSelection s n).fund = s.fund ∧ (finalSelection s n).idx = s.idx ∧
      (finalSelection s n).sign = s.sign ∧ (finalSelection s n).times = s.times ∧
      (finalSelection s n).ident.length = s.ident.length ∧
      (finalSelection s n).valid.length = s.ident.length :=
  ⟨rfl, rfl, rfl, rfl, by simp [finalSelection], by simp [finalSelection]⟩

theorem engine_ok_inv {s : Store} {n : ℕ} {s' : Store} (h : engine s n = .ok s') :
    ∃ s1 s2, sweep { s with valid := List.replicate s.ident.length false } = .ok s1 ∧
      connect_with_overlap (power_density_filter s1) = .ok s2 ∧
      s' = finalSelection s2 n := by
  unfold engine at h
  split at h
  · exact Except.noConfusion h
  · rename_i s1 hsw
    split at h
    · exact Except.noConfusion h
    · rename_i s2 hcw
      injection h with h2
      exact ⟨s1, s2, hsw, hcw, h2.symm⟩

theorem sweep_ok_inv {s s' : Store} (h : sweep s = .ok s') :
    ∃ st, sweepLoop (5 / 2) 600 (windowStarts s) (none, [], s) = .ok st ∧ s' = st.2.2 := by
  unfold sweep at h
  split at h
  · exact Except.noConfusion h
  · rename_i st hst
    injection h with h2
    exact ⟨st, hst, h2.symm⟩

/-- C3. Over a whole successful engine run, the frequency, per-detection
power and time-index arrays and the time-bin axis come out unchanged, the
detection count is preserved (the id column keeps its length, so nothing is
removed or reordered), and the validity mask has one entry per detection:
only the track-id column and the mask contents are mutated. -/
theorem C3_stages_only_relabel_and_mark (s s' : Store) (n : ℕ)
    (h : engine s n = .ok s') :
    s'.fund = s.fund ∧ s'.idx = s.idx ∧ s'.sign = s.sign ∧ s'.times = s.times ∧
      s'.ident.length = s.ident.length ∧ s'.valid.length = s.ident.length := by
  obtain ⟨s1, s2, hsw, hcw, hfin⟩ := engine_ok_inv h
  obtain ⟨st, hsl, hs1⟩ := sweep_ok_inv hsw
  have hf1 : SameFrame { s with valid := List.replicate s.ident.length false } s1 := by
    rw [hs1]
    exact frame_sweepLoop (windowStarts { s with
      valid := List.replicate s.ident.length false }) _ st hsl
  have hf2 : SameFrame s1 s2 :=
    sameFrame_trans (frame_power_density_filter s1) (frame_connect_with_overlap hcw)
  have hsel := frame_finalSelection s2 n
  rw [hfin]
  exact ⟨hsel.1.trans (hf2.1.trans hf1.1),
    hsel.2.1.trans (hf2.2.1.trans hf1.2.1),
    hsel.2.2.1.trans (hf2.2.2.1.trans hf1.2.2.1),
    hsel.2.2.2.1.trans (hf2.2.2.2.1.trans hf1.2.2.2.1),
    hsel.2.2.2.2.1.trans (hf2.2.2.2.2.1.trans hf1.2.2.2.2.1),
    hsel.2.2.2.2.2.trans (hf2.2.2.2.2.1.trans hf1.2.2.2.2.1)⟩

/-- C3 witness: the frame-preservation theorem applied to the concrete
`storeDup` run. -/
theorem C3_stages_only_relabel_and_mark_witness :
    storeDupFinal.fund = storeDup.fund ∧ storeDupFinal.idx = storeDup.idx ∧
      storeDupFinal.sign = storeDup.sign ∧ storeDupFinal.times = storeDup.times ∧
      storeDupFinal.ident.length = storeDup.ident.length ∧
      storeDupFinal.valid.length = storeDup.ident.length :=
  C3_stages_only_relabel_and_mark storeDup storeDupFinal 2 engine_dup

/-- C10. After a successful engine run, the validity flag of every detection
position agrees exactly with id assignment: it is set iff the detection
carries a surviving (non-absent) id — the final selection rebuilds the mask
from the id column alone. -/
theorem C10_validity_iff_assignment (s s' : Store) (n k : ℕ)
    (h : engine s n = .ok s') :
    (s'.valid.getD k false = true ↔ s'.ident.getD k none ≠ none) := by
  obtain ⟨s1, s2, hsw, hcw, hfin⟩ := engine_ok_inv h
  rw [hfin]
  exact finalSelection_valid_iff s2 n k

/-- C10 witness: the validity-assignment agreement at detection 2 of the
concrete `storeDup` run. -/
theorem C10_validity_iff_assignment_witness :
    (storeDupFinal.valid.getD 2 false = true ↔ storeDupFinal.ident.getD 2 none ≠ none) :=
  C10_validity_iff_assignment storeDup storeDupFinal 2 2 engine_dup

end Wavetracker
